import Mathlib

/-!
Verification of the mosa-tea demand-forecasting pipeline.

Shallow embedding of the three Python source files:
  * `src/data_cleansing.py` — PII removal and codebook anonymization,
  * `src/make_daily_revenue_weather_v1.py` — revenue aggregation, weather
    normalization and the date-keyed left merge,
  * `src/summarize_revenue_weather.py` — descriptive summaries.

Modelling conventions:
  * a pandas cell that may fail to parse is an `Option` (`none` = NaN/NaT);
  * currency and weather measurements are `ℚ`;
  * calendar dates are day numbers (days since 1970-01-01, a Thursday), so
    pandas `weekday` (Monday = 0) is `(d + 3) % 7`;
  * a DataFrame is a list of named columns (or a list of typed rows when the
    column structure is fixed);
  * Python's lexicographic string order (code-point-wise) is the
    lexicographic order on `String.data`, written `strle` / `strlt` below so
    that it evaluates by kernel reduction.
-/

/-- Python's `<=` on strings: lexicographic, code point by code point. -/
def strle (a b : String) : Prop := a.data ≤ b.data

/-- Python's `<` on strings: lexicographic, code point by code point. -/
def strlt (a b : String) : Prop := a.data < b.data

instance : DecidableRel strle := fun a b =>
  inferInstanceAs (Decidable (a.data ≤ b.data))

instance : DecidableRel strlt := fun a b =>
  inferInstanceAs (Decidable (a.data < b.data))

instance : IsTotal String strle := ⟨fun a b => le_total a.data b.data⟩

instance : IsTrans String strle := ⟨fun _ _ _ h h' => le_trans h h'⟩

instance : IsAntisymm String strle :=
  ⟨fun a b h h' => String.ext (le_antisymm h h')⟩

theorem strlt_of_strle_of_ne {a b : String} (h : strle a b) (hne : a ≠ b) :
    strlt a b :=
  lt_of_le_of_ne h (fun hd => hne (String.ext hd))

theorem not_strlt_of_strle {a b : String} (h : strle a b) : ¬ strlt b a :=
  not_lt.mpr h

/-- `str(n).zfill(4)`: decimal representation of `n`,
left-padded with `'0'` to width 4. -/
def zfill4 (n : Nat) : String :=
  let s := toString n
  String.mk (List.replicate (4 - s.length) '0') ++ s

/-- The dict comprehension
`{val: f"{pre}{str(i+1).zfill(4)}" for i, val in enumerate(values)}`,
generalized over the starting index `k` (the call site uses `k = 1`). -/
def numberFrom (pre : String) (k : Nat) : List String → List (String × String)
  | [] => []
  | v :: vs => (v, pre ++ zfill4 k) :: numberFrom pre (k + 1) vs

/-- `make_codebook` from `src/data_cleansing.py`:
`series.dropna().astype(str).unique()`, sorted lexicographically, then
numbered from 1.  The input series holds `none` for a null cell and `some s`
for the stringified value `s`. -/
def make_codebook (series : List (Option String)) (pre : String) :
    List (String × String) :=
  numberFrom pre 1 (List.insertionSort strle (series.filterMap id).dedup)

/-- Looking up a key distinct from the head skips the head entry. -/
theorem lookup_cons_ne {β : Type} (v a : String) (b : β) (es : List (String × β))
    (h : (v == a) = false) : List.lookup v ((a, b) :: es) = List.lookup v es := by
  simp [List.lookup_cons, h]

/-- Keys of the generated association list are exactly the numbered values. -/
theorem lookup_numberFrom_isSome (pre : String) (v : String) :
    ∀ (s : List String) (k : Nat),
      (List.lookup v (numberFrom pre k s)).isSome = true ↔ v ∈ s := by
  intro s
  induction s with
  | nil => intro k; simp [numberFrom]
  | cons a t ih =>
    intro k
    by_cases hv : v = a
    · subst hv; simp [numberFrom]
    · have hne : (v == a) = false := beq_false_of_ne hv
      rw [numberFrom, lookup_cons_ne v a _ _ hne, ih (k + 1)]
      simp only [List.mem_cons]
      exact ⟨Or.inr, fun h => h.elim (fun h' => absurd h' hv) id⟩

/-- In a `strle`-sorted duplicate-free list, the value found for `v` is the
prefixed zero-padded position of `v`, where the position is the start index
`k` plus the number of elements strictly below `v`. -/
theorem lookup_numberFrom_sorted (pre : String) (v : String) :
    ∀ (s : List String), List.Sorted strle s → s.Nodup → v ∈ s →
      ∀ k, List.lookup v (numberFrom pre k s) =
        some (pre ++ zfill4 (k + s.countP (fun x => decide (strlt x v)))) := by
  intro s
  induction s with
  | nil => intro _ _ h; cases h
  | cons a t ih =>
    intro hsort hnd hv k
    have hsort' : List.Sorted strle t := hsort.of_cons
    have hle : ∀ x ∈ t, strle a x :=
      fun x hx => List.rel_of_sorted_cons hsort x hx
    have hnd' : t.Nodup := hnd.of_cons
    by_cases hva : v = a
    · subst hva
      have hcount : (v :: t).countP (fun x => decide (strlt x v)) = 0 := by
        rw [List.countP_eq_zero]
        intro x hx
        rcases List.mem_cons.mp hx with rfl | hxt
        · simp [strlt]
        · simp only [decide_eq_true_eq]
          exact not_strlt_of_strle (hle x hxt)
      rw [numberFrom, List.lookup_cons_self, hcount]
      rfl
    · have hvt : v ∈ t := by
        rcases List.mem_cons.mp hv with h | h
        · exact absurd h hva
        · exact h
      have hav : strlt a v :=
        strlt_of_strle_of_ne (hle v hvt) (fun h => hva h.symm)
      have hcount : (a :: t).countP (fun x => decide (strlt x v)) =
          t.countP (fun x => decide (strlt x v)) + 1 := by
        rw [List.countP_cons, decide_eq_true hav]
        simp
      have hne : (v == a) = false := beq_false_of_ne hva
      rw [numberFrom, lookup_cons_ne v a _ _ hne]
      rw [ih hsort' hnd' hvt (k + 1), hcount]
      have harith : k + 1 + t.countP (fun x => decide (strlt x v)) =
          k + (t.countP (fun x => decide (strlt x v)) + 1) := by omega
      rw [harith]

/-- Absent keys look up to `none`. -/
theorem lookup_numberFrom_eq_none (pre : String) (v : String)
    (s : List String) (k : Nat) (hv : v ∉ s) :
    List.lookup v (numberFrom pre k s) = none := by
  have h := lookup_numberFrom_isSome pre v s k
  cases hlk : List.lookup v (numberFrom pre k s) with
  | none => rfl
  | some w =>
    exfalso
    exact hv (h.mp (by rw [hlk]; rfl))

/-- The sorted deduplicated list underlying a codebook. -/
def sortedDistinct (series : List (Option String)) : List String :=
  List.insertionSort strle (series.filterMap id).dedup

theorem sortedDistinct_sorted (series : List (Option String)) :
    List.Sorted strle (sortedDistinct series) :=
  List.sorted_insertionSort _ _

theorem sortedDistinct_nodup (series : List (Option String)) :
    (sortedDistinct series).Nodup :=
  (List.perm_insertionSort _ _).nodup_iff.mpr (List.nodup_dedup _)

theorem mem_sortedDistinct {series : List (Option String)} {v : String} :
    v ∈ sortedDistinct series ↔ v ∈ series.filterMap id := by
  unfold sortedDistinct
  rw [(List.perm_insertionSort _ _).mem_iff, List.mem_dedup]

/-- C1 — `make_codebook` maps each distinct non-null value to
`pre ++ zfill4 rank` where `rank` is its 1-based rank among the distinct
values in ascending lexicographic order; it ignores order and multiplicity
of the input, maps nothing else, and sends the empty input to the empty
mapping; on `["Latte","Mocha","Latte","Chai"]` with `"MTI"` it returns
`{"Chai": "MTI0001", "Latte": "MTI0002", "Mocha": "MTI0003"}`. -/
theorem make_codebook_spec :
    (∀ (l₁ l₂ : List (Option String)) (pre : String),
        (∀ v : String, v ∈ l₁.filterMap id ↔ v ∈ l₂.filterMap id) →
        make_codebook l₁ pre = make_codebook l₂ pre) ∧
    (∀ pre : String, make_codebook [] pre = []) ∧
    (∀ (l : List (Option String)) (pre v : String),
        v ∈ l.filterMap id →
        List.lookup v (make_codebook l pre) =
          some (pre ++ zfill4 (1 + (l.filterMap id).dedup.countP
            (fun x => decide (strlt x v))))) ∧
    (∀ (l : List (Option String)) (pre v : String),
        v ∉ l.filterMap id → List.lookup v (make_codebook l pre) = none) ∧
    make_codebook [some "Latte", some "Mocha", some "Latte", some "Chai"] "MTI"
      = [("Chai", "MTI0001"), ("Latte", "MTI0002"), ("Mocha", "MTI0003")] := by
  refine ⟨?_, ?_, ?_, ?_, ?_⟩
  · intro l₁ l₂ pre hmem
    unfold make_codebook
    congr 1
    have hperm : List.Perm (List.insertionSort strle (l₁.filterMap id).dedup)
        (List.insertionSort strle (l₂.filterMap id).dedup) :=
      (List.perm_insertionSort _ _).trans
        (((List.perm_ext_iff_of_nodup (List.nodup_dedup _)
            (List.nodup_dedup _)).mpr
          (fun v => by rw [List.mem_dedup, List.mem_dedup]; exact hmem v)).trans
          (List.perm_insertionSort _ _).symm)
    exact List.eq_of_perm_of_sorted hperm
      (List.sorted_insertionSort _ _) (List.sorted_insertionSort _ _)
  · intro pre; rfl
  · intro l pre v hv
    have hv' : v ∈ sortedDistinct l := mem_sortedDistinct.mpr hv
    have h := lookup_numberFrom_sorted pre v (sortedDistinct l)
      (sortedDistinct_sorted l) (sortedDistinct_nodup l) hv' 1
    have hcnt : (sortedDistinct l).countP (fun x => decide (strlt x v)) =
        (l.filterMap id).dedup.countP (fun x => decide (strlt x v)) :=
      (List.perm_insertionSort _ _).countP_eq _
    unfold make_codebook
    rw [show List.insertionSort strle (l.filterMap id).dedup
          = sortedDistinct l from rfl, h, hcnt]
  · intro l pre v hv
    exact lookup_numberFrom_eq_none pre v _ 1
      (fun h => hv (mem_sortedDistinct.mp h))
  · rfl

/-- C1 witness: the worked example evaluated through the rank formula. -/
theorem make_codebook_spec_witness :
    List.lookup "Latte"
        (make_codebook [some "Latte", some "Mocha", some "Latte", some "Chai"]
          "MTI") = some "MTI0002" := by
  have h := make_codebook_spec.2.2.1
    [some "Latte", some "Mocha", some "Latte", some "Chai"] "MTI" "Latte"
    (by decide)
  rw [h]
  rfl

/-! ## Revenue aggregation (`src/make_daily_revenue_weather_v1.py`) -/

/-- One raw order row after `pd.to_datetime` / `pd.to_numeric` with
`errors="coerce"`: `none` marks an unparseable date or total. -/
structure OrderRow where
  date : Option Nat
  total : Option ℚ
deriving DecidableEq, Repr

/-- `load_orders`: keep exactly the rows whose date and total both parsed. -/
def load_orders (rows : List OrderRow) : List (Nat × ℚ) :=
  rows.filterMap fun r => r.date.bind fun d => r.total.map fun t => (d, t)

/-- pandas `Series.dt.weekday` (Monday = 0) for a day number since
1970-01-01, which was a Thursday. -/
def epochWeekday (d : Nat) : Nat := (d + 3) % 7

/-- pandas `Series.dt.day_name()` for a weekday index. -/
def weekdayName : Nat → String
  | 0 => "Monday"
  | 1 => "Tuesday"
  | 2 => "Wednesday"
  | 3 => "Thursday"
  | 4 => "Friday"
  | 5 => "Saturday"
  | _ => "Sunday"

/-- One row of the daily revenue series. -/
structure DailyRow where
  date : Nat
  revenue : ℚ
  weekday : Nat
  weekday_name : String
deriving DecidableEq, Repr

/-- Sum of parsed order totals falling on day `d`. -/
def sumTotalsFor (orders : List (Nat × ℚ)) (d : Nat) : ℚ :=
  ((orders.filter fun o => o.1 = d).map Prod.snd).sum

/-- The `main` aggregation of `make_daily_revenue_weather_v1.py`:
group parsed orders by calendar date (pandas sorts group keys), sum the
totals, attach weekday index and name, sort ascending by date. -/
def daily_revenue (orders : List (Nat × ℚ)) : List DailyRow :=
  (List.insertionSort (· ≤ ·) (orders.map Prod.fst).dedup).map fun d =>
    ⟨d, sumTotalsFor orders d, epochWeekday d, weekdayName (epochWeekday d)⟩

/-- Adding to the value of one element of a duplicate-free list shifts the
mapped sum by that amount. -/
theorem sum_map_update (ds : List Nat) (a : Nat) (f : Nat → ℚ) (c : ℚ) :
    ds.Nodup → a ∈ ds →
    (ds.map fun d => if d = a then f d + c else f d).sum = (ds.map f).sum + c := by
  induction ds with
  | nil => intro _ h; cases h
  | cons b t ih =>
    intro hnd ha
    have hnb : b ∉ t := (List.nodup_cons.mp hnd).1
    have hnd' : t.Nodup := (List.nodup_cons.mp hnd).2
    rcases List.mem_cons.mp ha with hab | hat
    · have ht : (t.map fun d => if d = a then f d + c else f d) = t.map f := by
        apply List.map_congr_left
        intro x hx
        have hxa : x ≠ a := by
          intro h
          apply hnb
          rw [← hab, ← h]
          exact hx
        simp [hxa]
      simp only [List.map_cons, List.sum_cons, ht]
      rw [if_pos hab.symm]
      ring
    · have hba : b ≠ a := fun h => hnb (h ▸ hat)
      simp only [List.map_cons, List.sum_cons, if_neg hba, ih hnd' hat]
      ring

/-- Fiberwise sums over a duplicate-free cover of the keys add up to the
total sum. -/
theorem sum_fiberwise (orders : List (Nat × ℚ)) (ds : List Nat) :
    ds.Nodup → (∀ o ∈ orders, o.1 ∈ ds) →
    (ds.map (sumTotalsFor orders)).sum = (orders.map Prod.snd).sum := by
  induction orders with
  | nil =>
    intro _ _
    have h0 : ds.map (sumTotalsFor []) = ds.map fun _ => (0 : ℚ) := by
      apply List.map_congr_left
      intro x _
      simp [sumTotalsFor]
    rw [h0]
    simp
  | cons o os ih =>
    intro hnd hk
    have hko : o.1 ∈ ds := hk o (List.mem_cons_self o os)
    have hks : ∀ p ∈ os, p.1 ∈ ds := fun p hp => hk p (List.mem_cons_of_mem o hp)
    have hstep : ds.map (sumTotalsFor (o :: os)) =
        ds.map fun d => if d = o.1 then sumTotalsFor os d + o.2
          else sumTotalsFor os d := by
      apply List.map_congr_left
      intro d _
      by_cases hd : o.1 = d
      · subst hd
        simp [sumTotalsFor, List.filter_cons, add_comm]
      · have : ¬ (d = o.1) := fun h => hd h.symm
        simp [sumTotalsFor, List.filter_cons, hd, this]
    rw [hstep, sum_map_update ds o.1 (sumTotalsFor os) o.2 hnd hko, ih hnd hks]
    simp [add_comm]

/-- `load_orders` keeps exactly the rows with parseable date and total. -/
theorem load_orders_eq (rows : List OrderRow) :
    load_orders rows =
      (rows.filter fun r => r.date.isSome && r.total.isSome).map
        fun r => (r.date.getD 0, r.total.getD 0) := by
  induction rows with
  | nil => rfl
  | cons r rs ih =>
    cases hd : r.date with
    | none => simpa [load_orders, List.filter_cons, hd] using ih
    | some d =>
      cases ht : r.total with
      | none => simpa [load_orders, List.filter_cons, hd, ht] using ih
      | some t => simpa [load_orders, List.filter_cons, hd, ht] using ih

/-- The dates of the daily revenue series are the sorted distinct parsed
order dates. -/
theorem daily_revenue_map_date (os : List (Nat × ℚ)) :
    (daily_revenue os).map DailyRow.date
      = List.insertionSort (· ≤ ·) (os.map Prod.fst).dedup := by
  unfold daily_revenue
  rw [List.map_map]
  have hcomp : (DailyRow.date ∘ fun d =>
      (⟨d, sumTotalsFor os d, epochWeekday d,
        weekdayName (epochWeekday d)⟩ : DailyRow)) = id := rfl
  rw [hcomp, List.map_id]

/-- C2 — the daily revenue aggregation keeps exactly the rows whose date and
total both parse, emits one row per calendar date (duplicate-free, sorted
ascending) whose revenue is the sum of that date's parsed totals, attaches
the weekday index (Monday = 0) and weekday name, and conserves total
revenue; on the worked example `2025-10-01/10.00, 2025-10-01/5.00,
2025-10-02/unparseable` it yields the single row `2025-10-01 ↦ 15.00`
(day number 20362, a Wednesday). -/
theorem daily_revenue_aggregation_spec (rows : List OrderRow) :
    (load_orders rows =
      (rows.filter fun r => r.date.isSome && r.total.isSome).map
        fun r => (r.date.getD 0, r.total.getD 0)) ∧
    ((daily_revenue (load_orders rows)).map DailyRow.date).Nodup ∧
    List.Sorted (· ≤ ·) ((daily_revenue (load_orders rows)).map DailyRow.date) ∧
    (∀ d : Nat, d ∈ (daily_revenue (load_orders rows)).map DailyRow.date ↔
      ∃ t : ℚ, (d, t) ∈ load_orders rows) ∧
    (∀ row ∈ daily_revenue (load_orders rows),
      row.revenue = sumTotalsFor (load_orders rows) row.date ∧
      row.weekday = epochWeekday row.date ∧
      row.weekday_name = weekdayName row.weekday) ∧
    ((daily_revenue (load_orders rows)).map DailyRow.revenue).sum =
      ((load_orders rows).map Prod.snd).sum ∧
    daily_revenue (load_orders
        [⟨some 20362, some 10⟩, ⟨some 20362, some 5⟩, ⟨some 20363, none⟩])
      = [⟨20362, 15, 2, "Wednesday"⟩] := by
  set os := load_orders rows with hos
  have hdates : (daily_revenue os).map DailyRow.date
      = List.insertionSort (· ≤ ·) (os.map Prod.fst).dedup :=
    daily_revenue_map_date os
  have hnd : ((daily_revenue os).map DailyRow.date).Nodup := by
    rw [hdates]
    exact (List.perm_insertionSort _ _).nodup_iff.mpr (List.nodup_dedup _)
  refine ⟨load_orders_eq rows, hnd, ?_, ?_, ?_, ?_, ?_⟩
  · rw [hdates]
    exact List.sorted_insertionSort _ _
  · intro d
    rw [hdates, (List.perm_insertionSort _ _).mem_iff, List.mem_dedup,
      List.mem_map]
    constructor
    · rintro ⟨o, ho, rfl⟩
      exact ⟨o.2, ho⟩
    · rintro ⟨t, ht⟩
      exact ⟨(d, t), ht, rfl⟩
  · intro row hrow
    unfold daily_revenue at hrow
    rcases List.mem_map.mp hrow with ⟨d, _, rfl⟩
    exact ⟨rfl, rfl, rfl⟩
  · have hrev : (daily_revenue os).map DailyRow.revenue
        = (List.insertionSort (· ≤ ·) (os.map Prod.fst).dedup).map
            (sumTotalsFor os) := by
      unfold daily_revenue
      rw [List.map_map]
      rfl
    rw [hrev]
    apply sum_fiberwise
    · exact (List.perm_insertionSort _ _).nodup_iff.mpr (List.nodup_dedup _)
    · intro o ho
      rw [(List.perm_insertionSort _ _).mem_iff, List.mem_dedup]
      exact List.mem_map_of_mem Prod.fst ho
  · have h1 : daily_revenue (load_orders
        [⟨some 20362, some 10⟩, ⟨some 20362, some 5⟩, ⟨some 20363, none⟩])
        = [⟨20362, sumTotalsFor (load_orders
            [⟨some 20362, some 10⟩, ⟨some 20362, some 5⟩,
              ⟨some 20363, none⟩]) 20362, 2, "Wednesday"⟩] := rfl
    rw [h1]
    have h2 : sumTotalsFor (load_orders
        [⟨some 20362, some 10⟩, ⟨some 20362, some 5⟩,
          ⟨some 20363, none⟩]) 20362 = 15 := by
      simp [sumTotalsFor, load_orders]
      norm_num
    rw [h2]

/-- C2 witness: the date-membership clause instantiated on the worked
example (day 20362 is present since `(20362, 10)` is a parsed order). -/
theorem daily_revenue_aggregation_spec_witness :
    20362 ∈ (daily_revenue (load_orders
        [⟨some 20362, some 10⟩, ⟨some 20362, some 5⟩,
          ⟨some 20363, none⟩])).map DailyRow.date := by
  exact ((daily_revenue_aggregation_spec
      [⟨some 20362, some 10⟩, ⟨some 20362, some 5⟩,
        ⟨some 20363, none⟩]).2.2.2.1 20362).mpr ⟨10, by decide⟩

/-! ## Weather loading and the date-keyed left merge -/

/-- A raw tabular cell before numeric coercion: a number, non-numeric text,
or a null. -/
inductive Cell : Type
  | num (q : ℚ)
  | text (s : String)
  | null
deriving DecidableEq, Repr

/-- `pd.to_numeric(..., errors="coerce")`: non-numeric cells become null. -/
def to_numeric : Cell → Option ℚ
  | .num q => some q
  | .text _ => none
  | .null => none

/-- One row of an already-daily weather file after column normalization,
with the date already run through
`pd.to_datetime(..., errors="coerce").dt.date` (`none` = unparseable). -/
structure RawDailyRow where
  date : Option Nat
  temp : Cell
  rain : Cell
deriving DecidableEq, Repr

/-- One row of the normalized daily weather series. -/
structure WeatherRow where
  date : Nat
  temp : Option ℚ
  rain : Option ℚ
deriving DecidableEq, Repr

/-- The parsed weather rows: numeric coercion of temp and rain applied to
every row (the date default is never used on the success path, where all
dates are `some`). -/
def parseWeather (rows : List RawDailyRow) : List WeatherRow :=
  rows.map fun r =>
    WeatherRow.mk (r.date.getD 0) (to_numeric r.temp) (to_numeric r.rain)

/-- `load_weather` from `make_daily_revenue_weather_v1.py` (after column
normalization): coerce temp and rain to numbers (silently), fail if any
date is unparseable, fail if any date repeats, otherwise return the rows. -/
def load_weather (rows : List RawDailyRow) : Except String (List WeatherRow) :=
  if rows.any fun r => r.date.isNone then
    .error "Weather file has invalid dates in the date column."
  else if ((parseWeather rows).map WeatherRow.date).Nodup then
    .ok (parseWeather rows)
  else
    .error "Weather file has duplicate dates; expected 1 row per day."

/-- One row of the merged analytics table. -/
structure MergedRow where
  date : Nat
  revenue : ℚ
  weekday : Nat
  weekday_name : String
  temp : Option ℚ
  rain : Option ℚ
deriving DecidableEq, Repr

/-- `daily.merge(weather, on="date", how="left")`: each revenue row is
paired with every weather row sharing its date, or kept with null weather
fields when no weather row matches. -/
def leftMerge (daily : List DailyRow) (weather : List WeatherRow) :
    List MergedRow :=
  daily.flatMap fun r =>
    match weather.filter fun w => w.date = r.date with
    | [] => [⟨r.date, r.revenue, r.weekday, r.weekday_name, none, none⟩]
    | w :: ws => (w :: ws).map fun w' =>
        ⟨r.date, r.revenue, r.weekday, r.weekday_name, w'.temp, w'.rain⟩

/-- The merge section of `main`: if a weather table was loaded, left-join it
onto the daily series; otherwise copy the daily series and add empty `temp`
and `rain` columns.  Both branches return normally (the missing-weather
case only prints a warning). -/
def main_merge (daily : List DailyRow) (weather : Option (List WeatherRow)) :
    List MergedRow :=
  match weather with
  | some w => leftMerge daily w
  | none => daily.map fun r =>
      ⟨r.date, r.revenue, r.weekday, r.weekday_name, none, none⟩

/-- In a list whose keys are duplicate-free, at most one element carries any
given key. -/
theorem length_filter_key_le_one {α β : Type} [DecidableEq β] (key : α → β)
    (l : List α) (hnd : (l.map key).Nodup) (d : β) :
    (l.filter fun x => key x = d).length ≤ 1 := by
  induction l with
  | nil => simp
  | cons a t ih =>
    have hnd' : (t.map key).Nodup := (List.nodup_cons.mp hnd).2
    have hna : key a ∉ t.map key := (List.nodup_cons.mp hnd).1
    by_cases hk : key a = d
    · have hzero : (t.filter fun x => key x = d).length = 0 := by
        rw [List.length_eq_zero, List.filter_eq_nil_iff]
        intro x hx
        simp only [decide_eq_true_eq]
        intro hxd
        exact hna (hk ▸ hxd ▸ List.mem_map_of_mem key hx)
      rw [List.filter_cons]
      simp [hk, hzero]
    · have hdk : (decide (key a = d)) = false := by simp [hk]
      rw [List.filter_cons, hdk]
      simpa using ih hnd'

/-- With duplicate-free weather dates, the left merge keeps the daily
series' dates unchanged, one output row per input row. -/
theorem leftMerge_map_date (daily : List DailyRow) (weather : List WeatherRow)
    (hw : (weather.map WeatherRow.date).Nodup) :
    (leftMerge daily weather).map MergedRow.date = daily.map DailyRow.date := by
  induction daily with
  | nil => rfl
  | cons r t ih =>
    have hstep : leftMerge (r :: t) weather =
        (match weather.filter fun w => w.date = r.date with
          | [] => [⟨r.date, r.revenue, r.weekday, r.weekday_name, none, none⟩]
          | w :: ws => (w :: ws).map fun w' =>
              ⟨r.date, r.revenue, r.weekday, r.weekday_name, w'.temp, w'.rain⟩)
        ++ leftMerge t weather := by
      unfold leftMerge
      rw [List.flatMap_cons]
    rw [hstep, List.map_append, ih, List.map_cons]
    cases hfil : weather.filter fun w => w.date = r.date with
    | nil => simp
    | cons w ws =>
      have hlen := length_filter_key_le_one WeatherRow.date weather hw r.date
      rw [hfil] at hlen
      have hws : ws = [] := by
        cases ws with
        | nil => rfl
        | cons x l =>
          exact absurd hlen (by simp)
      subst hws
      simp

/-- C3 — merge completeness: with a loaded weather table (whose dates are
unique, as `load_weather` guarantees) the merged output carries exactly the
daily series' dates — each date of the duplicate-free daily series exactly
once; a daily row with a matching weather row receives its temp and rain and
one without receives nulls.  With no weather file at all, the output is the
daily series with `temp` and `rain` present but null on every row (and the
branch returns normally — the condition is only a printed diagnostic). -/
theorem merge_completeness_spec (daily : List DailyRow)
    (weather : List WeatherRow)
    (hw : (weather.map WeatherRow.date).Nodup)
    (hd : (daily.map DailyRow.date).Nodup) :
    ((main_merge daily (some weather)).map MergedRow.date
      = daily.map DailyRow.date) ∧
    (∀ d ∈ daily.map DailyRow.date,
      ((main_merge daily (some weather)).map MergedRow.date).count d = 1) ∧
    (∀ r ∈ daily, ∀ w ∈ weather, w.date = r.date →
      (⟨r.date, r.revenue, r.weekday, r.weekday_name, w.temp, w.rain⟩ :
        MergedRow) ∈ main_merge daily (some weather)) ∧
    (∀ r ∈ daily, (∀ w ∈ weather, w.date ≠ r.date) →
      (⟨r.date, r.revenue, r.weekday, r.weekday_name, none, none⟩ :
        MergedRow) ∈ main_merge daily (some weather)) ∧
    ((main_merge daily none).map MergedRow.date = daily.map DailyRow.date) ∧
    (∀ m ∈ main_merge daily none, m.temp = none ∧ m.rain = none) := by
  have hmap : (main_merge daily (some weather)).map MergedRow.date
      = daily.map DailyRow.date := leftMerge_map_date daily weather hw
  refine ⟨hmap, ?_, ?_, ?_, ?_, ?_⟩
  · intro d hdmem
    rw [hmap]
    exact List.count_eq_one_of_mem hd hdmem
  · intro r hr w hwmem hwd
    have hwfil : w ∈ weather.filter fun w' => w'.date = r.date :=
      List.mem_filter.mpr ⟨hwmem, by simp [hwd]⟩
    show _ ∈ daily.flatMap _
    rw [List.mem_flatMap]
    refine ⟨r, hr, ?_⟩
    cases hfil : weather.filter fun w' => w'.date = r.date with
    | nil => rw [hfil] at hwfil; cases hwfil
    | cons w0 ws =>
      rw [hfil] at hwfil
      simp only [List.mem_map]
      exact ⟨w, hwfil, rfl⟩
  · intro r hr hno
    show _ ∈ daily.flatMap _
    rw [List.mem_flatMap]
    refine ⟨r, hr, ?_⟩
    have hfil : (weather.filter fun w' => w'.date = r.date) = [] := by
      rw [List.filter_eq_nil_iff]
      intro w hwmem
      simp only [decide_eq_true_eq]
      exact hno w hwmem
    rw [hfil]
    simp
  · show List.map MergedRow.date (daily.map fun r =>
        (⟨r.date, r.revenue, r.weekday, r.weekday_name, none, none⟩ :
          MergedRow)) = daily.map DailyRow.date
    rw [List.map_map]
    rfl
  · intro m hm
    rcases List.mem_map.mp hm with ⟨r, _, rfl⟩
    exact ⟨rfl, rfl⟩

/-- C3 witness: one daily row, weather covering its date. -/
theorem merge_completeness_spec_witness :
    ((main_merge [⟨20362, 15, 2, "Wednesday"⟩]
        (some [⟨20362, some 70, some 0⟩])).map MergedRow.date).count 20362
      = 1 := by
  exact (merge_completeness_spec [⟨20362, 15, 2, "Wednesday"⟩]
      [⟨20362, some 70, some 0⟩] (by decide) (by decide)).2.1 20362 (by decide)

/-- The dates of the parsed weather rows, unwrapped. -/
theorem parseWeather_map_date (rows : List RawDailyRow) :
    (parseWeather rows).map WeatherRow.date
      = rows.map fun r => r.date.getD 0 := by
  unfold parseWeather
  rw [List.map_map]
  rfl

/-- C4 — `load_weather` fails with a validation error when any date fails to
parse or when two rows share a calendar date, and on success returns the
input rows (numerically coerced) with pairwise-distinct dates — never two
rows with the same date. -/
theorem load_weather_validation_spec :
    (∀ rows : List RawDailyRow, (∃ r ∈ rows, r.date = none) →
      load_weather rows =
        .error "Weather file has invalid dates in the date column.") ∧
    (∀ rows : List RawDailyRow, (∀ r ∈ rows, r.date.isSome) →
      ¬ (rows.map fun r => r.date.getD 0).Nodup →
      load_weather rows =
        .error "Weather file has duplicate dates; expected 1 row per day.") ∧
    (∀ (rows : List RawDailyRow) (out : List WeatherRow),
      load_weather rows = .ok out →
      out = parseWeather rows ∧ (out.map WeatherRow.date).Nodup) := by
  refine ⟨?_, ?_, ?_⟩
  · rintro rows ⟨r, hr, hnone⟩
    have hany : (rows.any fun r => r.date.isNone) = true := by
      rw [List.any_eq_true]
      exact ⟨r, hr, by rw [hnone]; rfl⟩
    unfold load_weather
    rw [if_pos hany]
  · intro rows hsome hdup
    have hany : ¬ ((rows.any fun r => r.date.isNone) = true) := by
      rw [List.any_eq_true]
      rintro ⟨r, hr, hnone⟩
      have := hsome r hr
      rw [Option.isNone_iff_eq_none] at hnone
      rw [hnone] at this
      cases this
    have hnd : ¬ ((parseWeather rows).map WeatherRow.date).Nodup := by
      rw [parseWeather_map_date]
      exact hdup
    unfold load_weather
    rw [if_neg hany, if_neg hnd]
  · intro rows out hok
    unfold load_weather at hok
    by_cases hany : (rows.any fun r => r.date.isNone) = true
    · rw [if_pos hany] at hok
      cases hok
    · rw [if_neg hany] at hok
      by_cases hnd : ((parseWeather rows).map WeatherRow.date).Nodup
      · rw [if_pos hnd] at hok
        cases hok
        exact ⟨rfl, hnd⟩
      · rw [if_neg hnd] at hok
        cases hok

/-- C4 witness: a file with two rows on the same date fails with the
duplicate-date validation error. -/
theorem load_weather_validation_spec_witness :
    load_weather [⟨some 5, Cell.num 70, Cell.num 0⟩,
        ⟨some 5, Cell.num 68, Cell.num 1⟩] =
      .error "Weather file has duplicate dates; expected 1 row per day." := by
  exact load_weather_validation_spec.2.1
    [⟨some 5, Cell.num 70, Cell.num 0⟩, ⟨some 5, Cell.num 68, Cell.num 1⟩]
    (by decide) (by decide)

/-- C10 — `load_weather` validates only dates: non-numeric temp and rain
cells are silently coerced to null and the load still succeeds; success
holds exactly when every date parses and no date repeats, and the returned
rows carry the coerced temp and rain values verbatim. -/
theorem load_weather_no_value_validation_spec :
    (∀ s : String, to_numeric (Cell.text s) = none) ∧
    (to_numeric Cell.null = none) ∧
    (∀ rows : List RawDailyRow, (∀ r ∈ rows, r.date.isSome) →
      (rows.map fun r => r.date.getD 0).Nodup →
      load_weather rows = .ok (parseWeather rows)) ∧
    (∀ (rows : List RawDailyRow) (out : List WeatherRow),
      load_weather rows = .ok out →
      (∀ r ∈ rows, r.date.isSome) ∧ (rows.map fun r => r.date.getD 0).Nodup) := by
  refine ⟨fun s => rfl, rfl, ?_, ?_⟩
  · intro rows hsome hnd
    have hany : ¬ ((rows.any fun r => r.date.isNone) = true) := by
      rw [List.any_eq_true]
      rintro ⟨r, hr, hnone⟩
      have := hsome r hr
      rw [Option.isNone_iff_eq_none] at hnone
      rw [hnone] at this
      cases this
    have hnd' : ((parseWeather rows).map WeatherRow.date).Nodup := by
      rw [parseWeather_map_date]
      exact hnd
    unfold load_weather
    rw [if_neg hany, if_pos hnd']
  · intro rows out hok
    unfold load_weather at hok
    by_cases hany : (rows.any fun r => r.date.isNone) = true
    · rw [if_pos hany] at hok
      cases hok
    · constructor
      · intro r hr
        rw [List.any_eq_true] at hany
        cases hdate : r.date with
        | none =>
          exact absurd ⟨r, hr, by rw [hdate]; rfl⟩ hany
        | some d => rfl
      · rw [if_neg hany] at hok
        by_cases hnd : ((parseWeather rows).map WeatherRow.date).Nodup
        · rw [parseWeather_map_date] at hnd
          exact hnd
        · rw [if_neg hnd] at hok
          cases hok

/-- C10 witness: a non-numeric temp cell is coerced to null and the load
succeeds. -/
theorem load_weather_no_value_validation_spec_witness :
    load_weather [⟨some 5, Cell.text "abc", Cell.num 0⟩] =
      .ok [⟨5, none, some 0⟩] := by
  exact load_weather_no_value_validation_spec.2.2.1
    [⟨some 5, Cell.text "abc", Cell.num 0⟩] (by decide) (by decide)

/-! ## Deriving daily weather from raw multi-station data -/

/-- One raw station row (cells of a column are only meaningful when the
corresponding column exists in the table). -/
structure RawStationRow where
  date : Option Nat
  prcp : Cell
  tavg : Cell
  tmax : Cell
  tmin : Cell
deriving DecidableEq, Repr

/-- A raw multi-station weather table: which optional columns exist, plus
the rows. -/
structure RawStationTable where
  hasDATE : Bool
  hasPRCP : Bool
  hasTAVG : Bool
  hasTMAX : Bool
  hasTMIN : Bool
  rows : List RawStationRow
deriving DecidableEq, Repr

/-- pandas `mean()` with NaN-skipping already applied by the caller:
mean of a list of present values, NaN (`none`) when the list is empty. -/
def optMean (qs : List ℚ) : Option ℚ :=
  match qs with
  | [] => none
  | _ => some (qs.sum / qs.length)

/-- NaN-propagating addition: `none` is NaN. -/
def optAdd : Option ℚ → Option ℚ → Option ℚ
  | some a, some b => some (a + b)
  | _, _ => none

/-- NaN-propagating halving. -/
def optHalf : Option ℚ → Option ℚ := Option.map (· / 2)

/-- `(raw["TMAX"] + raw["TMIN"]) / 2` on one row. -/
def meanMaxMin (r : RawStationRow) : Option ℚ :=
  optHalf (optAdd (to_numeric r.tmax) (to_numeric r.tmin))

/-- `raw["TAVG"].fillna((raw["TMAX"] + raw["TMIN"]) / 2)` on one row. -/
def tavgFilled (r : RawStationRow) : Option ℚ :=
  match to_numeric r.tavg with
  | some q => some q
  | none => meanMaxMin r

/-- The `(date, temp, rain)` triples surviving `dropna(subset=["date"])`. -/
def stationEntries (tempOf : RawStationRow → Option ℚ)
    (rows : List RawStationRow) : List (Nat × Option ℚ × Option ℚ) :=
  rows.filterMap fun r => r.date.map fun d => (d, tempOf r, to_numeric r.prcp)

/-- `weather.groupby("date", as_index=False).mean(numeric_only=True)`:
one row per distinct date (pandas sorts the group keys), numeric columns
averaged over the values present in the group. -/
def groupMean (entries : List (Nat × Option ℚ × Option ℚ)) : List WeatherRow :=
  (List.insertionSort (· ≤ ·) (entries.map Prod.fst).dedup).map fun d =>
    ⟨d,
      optMean ((entries.filter fun e => e.1 = d).filterMap fun e => e.2.1),
      optMean ((entries.filter fun e => e.1 = d).filterMap fun e => e.2.2)⟩

/-- `prepare_weather_from_raw` from `make_daily_revenue_weather_v1.py`:
require DATE and PRCP; take TAVG (filled from (TMAX+TMIN)/2 where both
exist) when a TAVG column exists, else (TMAX+TMIN)/2 when both exist, else
fail; drop rows with unparseable dates; collapse equal dates by averaging. -/
def prepare_weather_from_raw (t : RawStationTable) :
    Except String (List WeatherRow) :=
  if !(t.hasDATE && t.hasPRCP) then
    .error "Raw weather data must include DATE and PRCP columns."
  else if t.hasTAVG then
    .ok (groupMean (stationEntries
      (fun r => if t.hasTMAX && t.hasTMIN then tavgFilled r
        else to_numeric r.tavg) t.rows))
  else if t.hasTMAX && t.hasTMIN then
    .ok (groupMean (stationEntries meanMaxMin t.rows))
  else
    .error "Raw weather data must include TAVG or both TMAX and TMIN."

/-- The dates of the collapsed weather table are the sorted distinct entry
dates. -/
theorem groupMean_map_date (entries : List (Nat × Option ℚ × Option ℚ)) :
    (groupMean entries).map WeatherRow.date
      = List.insertionSort (· ≤ ·) (entries.map Prod.fst).dedup := by
  unfold groupMean
  rw [List.map_map]
  have hcomp : (WeatherRow.date ∘ fun d =>
      (⟨d,
        optMean ((entries.filter fun e => e.1 = d).filterMap fun e => e.2.1),
        optMean ((entries.filter fun e => e.1 = d).filterMap fun e => e.2.2)⟩ :
        WeatherRow)) = id := rfl
  rw [hcomp, List.map_id]

/-- A date survives into the station entries iff some row parses to it. -/
theorem mem_stationEntries_fst (tempOf : RawStationRow → Option ℚ)
    (rows : List RawStationRow) (d : Nat) :
    d ∈ (stationEntries tempOf rows).map Prod.fst ↔
      ∃ r ∈ rows, r.date = some d := by
  simp only [stationEntries, List.mem_map, List.mem_filterMap,
    Option.map_eq_some']
  constructor
  · rintro ⟨e, ⟨r, hr, d', hd', rfl⟩, rfl⟩
    exact ⟨r, hr, hd'⟩
  · rintro ⟨r, hr, hd⟩
    exact ⟨(d, tempOf r, to_numeric r.prcp), ⟨r, hr, d, hd, rfl⟩, rfl⟩

/-- C5 — derived daily weather: temperature is TAVG (filled with
(TMAX+TMIN)/2 where TAVG is missing and both exist) when a TAVG column
exists, else (TMAX+TMIN)/2 when both exist, else the load fails; rows with
unparseable dates are dropped without failing; equal dates are collapsed to
one output row by averaging the present numeric values; the worked example
TMAX=80, TMIN=60, no TAVG, PRCP=0.0 yields temp 70.0 and rain 0.0. -/
theorem prepare_weather_from_raw_spec :
    (∀ t : RawStationTable, (t.hasDATE && t.hasPRCP) = true →
      t.hasTAVG = false → (t.hasTMAX && t.hasTMIN) = false →
      prepare_weather_from_raw t =
        .error "Raw weather data must include TAVG or both TMAX and TMIN.") ∧
    (∀ t : RawStationTable, (t.hasDATE && t.hasPRCP) = true →
      t.hasTAVG = true →
      prepare_weather_from_raw t = .ok (groupMean (stationEntries
        (fun r => if t.hasTMAX && t.hasTMIN then tavgFilled r
          else to_numeric r.tavg) t.rows))) ∧
    (∀ t : RawStationTable, (t.hasDATE && t.hasPRCP) = true →
      t.hasTAVG = false → (t.hasTMAX && t.hasTMIN) = true →
      prepare_weather_from_raw t =
        .ok (groupMean (stationEntries meanMaxMin t.rows))) ∧
    (∀ (r : RawStationRow) (q : ℚ),
      to_numeric r.tavg = some q → tavgFilled r = some q) ∧
    (∀ r : RawStationRow,
      to_numeric r.tavg = none → tavgFilled r = meanMaxMin r) ∧
    (∀ (r : RawStationRow) (a b : ℚ),
      to_numeric r.tmax = some a → to_numeric r.tmin = some b →
      meanMaxMin r = some ((a + b) / 2)) ∧
    (∀ (tempOf : RawStationRow → Option ℚ) (rows : List RawStationRow),
      ((groupMean (stationEntries tempOf rows)).map WeatherRow.date).Nodup ∧
      (∀ d : Nat,
        d ∈ (groupMean (stationEntries tempOf rows)).map WeatherRow.date ↔
          ∃ r ∈ rows, r.date = some d) ∧
      (∀ w ∈ groupMean (stationEntries tempOf rows),
        w.temp = optMean (((stationEntries tempOf rows).filter
            fun e => e.1 = w.date).filterMap fun e => e.2.1) ∧
        w.rain = optMean (((stationEntries tempOf rows).filter
            fun e => e.1 = w.date).filterMap fun e => e.2.2))) ∧
    prepare_weather_from_raw
        ⟨true, true, false, true, true,
          [⟨some 20362, Cell.num 0, Cell.null, Cell.num 80, Cell.num 60⟩]⟩
      = .ok [⟨20362, some 70, some 0⟩] := by
  refine ⟨?_, ?_, ?_, ?_, ?_, ?_, ?_, ?_⟩
  · intro t hdp htavg hmm
    unfold prepare_weather_from_raw
    rw [hdp, htavg, hmm]
    rfl
  · intro t hdp htavg
    unfold prepare_weather_from_raw
    rw [hdp, htavg]
    rfl
  · intro t hdp htavg hmm
    unfold prepare_weather_from_raw
    rw [hdp, htavg, hmm]
    rfl
  · intro r q hq
    unfold tavgFilled
    rw [hq]
  · intro r hq
    unfold tavgFilled
    rw [hq]
  · intro r a b ha hb
    unfold meanMaxMin
    rw [ha, hb]
    rfl
  · intro tempOf rows
    refine ⟨?_, ?_, ?_⟩
    · rw [groupMean_map_date]
      exact (List.perm_insertionSort _ _).nodup_iff.mpr (List.nodup_dedup _)
    · intro d
      rw [groupMean_map_date, (List.perm_insertionSort _ _).mem_iff,
        List.mem_dedup]
      exact mem_stationEntries_fst tempOf rows d
    · intro w hw
      unfold groupMean at hw
      rcases List.mem_map.mp hw with ⟨d, _, rfl⟩
      exact ⟨rfl, rfl⟩
  · have hmean : meanMaxMin
        ⟨some 20362, Cell.num 0, Cell.null, Cell.num 80, Cell.num 60⟩
        = some 70 := by
      show some (((80 : ℚ) + 60) / 2) = some 70
      norm_num
    have h1 : prepare_weather_from_raw
        ⟨true, true, false, true, true,
          [⟨some 20362, Cell.num 0, Cell.null, Cell.num 80, Cell.num 60⟩]⟩
        = .ok (groupMean [(20362, meanMaxMin
            ⟨some 20362, Cell.num 0, Cell.null, Cell.num 80, Cell.num 60⟩,
            some 0)]) := rfl
    rw [h1, hmean]
    have h2 : groupMean [((20362 : Nat), some (70 : ℚ), some (0 : ℚ))]
        = [⟨20362, optMean [70], optMean [0]⟩] := rfl
    rw [h2]
    have h3 : optMean [(70 : ℚ)] = some 70 := by
      unfold optMean
      norm_num
    have h4 : optMean [(0 : ℚ)] = some 0 := by
      unfold optMean
      norm_num
    rw [h3, h4]

/-- C5 witness: with no TAVG column and no TMIN column, the load fails with
the temperature-source error. -/
theorem prepare_weather_from_raw_spec_witness :
    prepare_weather_from_raw ⟨true, true, false, true, false, []⟩ =
      .error "Raw weather data must include TAVG or both TMAX and TMIN." :=
  prepare_weather_from_raw_spec.1 ⟨true, true, false, true, false, []⟩
    rfl rfl rfl

/-! ## Anonymization pipeline (`src/data_cleansing.py`) -/

/-- A DataFrame of string-valued columns: column name plus cells
(`none` = NaN). -/
abbrev DF := List (String × List (Option String))

/-- The column labels, in order. -/
def dfNames (df : DF) : List String := df.map Prod.fst

/-- The cells of the (first) column with the given label. -/
def getCol (df : DF) (name : String) : List (Option String) :=
  ((df.find? fun c => c.1 = name).map Prod.snd).getD []

/-- `df.drop(columns=[name])`: remove every column with that label. -/
def dropCol (df : DF) (name : String) : DF :=
  df.filter fun c => ¬ c.1 = name

/-- `df[name] = vals`: overwrite the column in place when the label exists,
else append it as the last column. -/
def setCol (df : DF) (name : String) (vals : List (Option String)) : DF :=
  if df.any fun c => c.1 = name then
    df.map fun c => if c.1 = name then (name, vals) else c
  else df ++ [(name, vals)]

/-- pandas `astype(str)` on one cell: NaN becomes the string `"nan"`. -/
def cellStr : Option String → String
  | some s => s
  | none => "nan"

/-- The fixed PII column list of `data_cleansing.py`. -/
def pii_columns : List String :=
  ["Order Name", "Recipient Name", "Recipient Email", "Recipient Phone",
   "Recipient Address", "Recipient Address 2", "Recipient Postal Code",
   "Recipient City", "Recipient Region", "Recipient Country",
   "Fulfillment Notes"]

/-- The PII-removal step: drop exactly the listed columns that are present
(absent listed columns are simply not in the drop list). -/
def drop_pii (df : DF) : DF :=
  df.filter fun c => ¬ c.1 ∈ pii_columns

/-- One iteration of the `SENSITIVE_CATEGORICALS` loop: when the source
column is present, build its codebook, add the mapped ID column, then drop
the source column; when absent, skip (the code only prints a notice). -/
def anonymize_step (df : DF) (src idc pre : String) : DF :=
  if src ∈ dfNames df then
    dropCol (setCol df idc ((getCol df src).map fun v =>
      List.lookup (cellStr v) (make_codebook (getCol df src) pre))) src
  else df

/-- `main` of `data_cleansing.py` on an in-memory table: PII removal, then
the two configured sensitive columns in configuration order. -/
def data_cleansing_main (df : DF) : DF :=
  anonymize_step
    (anonymize_step (drop_pii df) "Item Name" "Item ID" "MTI")
    "Item Modifiers" "Modifier ID" "MTM"

/-- Filtering by a predicate that keeps every column labelled `src` does
not change the first column found for `src`. -/
theorem find?_filter_keep (q : String × List (Option String) → Bool)
    (src : String) (hq : ∀ c : String × List (Option String),
      c.1 = src → q c = true) :
    ∀ df : DF, (df.filter q).find? (fun c => c.1 = src)
      = df.find? fun c => c.1 = src := by
  intro df
  induction df with
  | nil => rfl
  | cons c t ih =>
    by_cases hc : c.1 = src
    · rw [List.filter_cons, hq c hc]
      simp only [if_true]
      rw [List.find?_cons_of_pos _ (by simp [hc]),
        List.find?_cons_of_pos _ (by simp [hc])]
    · by_cases hp : q c = true
      · rw [List.filter_cons, hp]
        simp only [if_true]
        rw [List.find?_cons_of_neg _ (by simp [hc]),
          List.find?_cons_of_neg _ (by simp [hc])]
        exact ih
      · have hp' : q c = false := by
          cases hpc : q c
          · rfl
          · exact absurd hpc hp
        rw [List.filter_cons, hp']
        simp only [Bool.false_eq_true, if_false]
        rw [List.find?_cons_of_neg _ (by simp [hc])]
        exact ih

/-- Dropping a differently-labelled column preserves a column's cells. -/
theorem getCol_dropCol_ne (df : DF) (n m : String) (hm : ¬ m = n) :
    getCol (dropCol df n) m = getCol df m := by
  unfold getCol dropCol
  rw [find?_filter_keep _ m (fun c hc => by simp [hc, hm]) df]

/-- PII removal preserves the cells of every non-PII column. -/
theorem getCol_drop_pii (df : DF) (m : String) (hm : ¬ m ∈ pii_columns) :
    getCol (drop_pii df) m = getCol df m := by
  unfold getCol drop_pii
  rw [find?_filter_keep _ m (fun c hc => by simp [hc, hm]) df]

/-- After overwriting entries labelled `n`, the first column found for `n`
is the new one (given at least one entry is labelled `n`). -/
theorem find?_map_set_self (n : String) (vals : List (Option String)) :
    ∀ df : DF, (df.any fun c => c.1 = n) = true →
      ((df.map fun c => if c.1 = n then (n, vals) else c).find?
        fun c => c.1 = n) = some (n, vals) := by
  intro df
  induction df with
  | nil => intro h; cases h
  | cons c t ih =>
    intro hany
    by_cases hc : c.1 = n
    · rw [List.map_cons, if_pos hc, List.find?_cons_of_pos _ (by simp)]
    · rw [List.map_cons, if_neg hc, List.find?_cons_of_neg _ (by simp [hc])]
      apply ih
      rw [List.any_cons] at hany
      rcases Bool.or_eq_true_iff.mp hany with h | h
      · exact absurd (by simpa using h) hc
      · exact h

/-- Overwriting entries labelled `n` does not change the first column found
for a different label. -/
theorem find?_map_set_ne (n : String) (vals : List (Option String))
    (m : String) (hm : ¬ m = n) :
    ∀ df : DF, ((df.map fun c => if c.1 = n then (n, vals) else c).find?
        fun c => c.1 = m) = df.find? fun c => c.1 = m := by
  intro df
  induction df with
  | nil => rfl
  | cons c t ih =>
    by_cases hc : c.1 = n
    · have hcm : ¬ c.1 = m := by
        rw [hc]
        exact fun h => hm h.symm
      rw [List.map_cons, if_pos hc, List.find?_cons_of_neg _ (by
        simp only [decide_eq_true_eq]
        exact fun h => hm h.symm),
        List.find?_cons_of_neg _ (by simp [hcm])]
      exact ih
    · rw [List.map_cons, if_neg hc]
      by_cases hcm : c.1 = m
      · rw [List.find?_cons_of_pos _ (by simp [hcm]),
          List.find?_cons_of_pos _ (by simp [hcm])]
      · rw [List.find?_cons_of_neg _ (by simp [hcm]),
          List.find?_cons_of_neg _ (by simp [hcm])]
        exact ih

/-- `setCol` leaves the assigned column's cells readable back. -/
theorem getCol_setCol_self (df : DF) (n : String)
    (vals : List (Option String)) :
    getCol (setCol df n vals) n = vals := by
  unfold getCol setCol
  by_cases hany : (df.any fun c => c.1 = n) = true
  · rw [if_pos hany, find?_map_set_self n vals df hany]
    rfl
  · rw [if_neg hany, List.find?_append]
    have hnone : (df.find? fun c => c.1 = n) = none := by
      rw [List.find?_eq_none]
      intro c hc
      simp only [decide_eq_true_eq]
      intro hcn
      exact hany (List.any_eq_true.mpr ⟨c, hc, by simp [hcn]⟩)
    rw [hnone, List.find?_cons_of_pos _ (by simp)]
    rfl

/-- `setCol` preserves the cells of every other column. -/
theorem getCol_setCol_ne (df : DF) (n : String)
    (vals : List (Option String)) (m : String) (hm : ¬ m = n) :
    getCol (setCol df n vals) m = getCol df m := by
  unfold getCol setCol
  by_cases hany : (df.any fun c => c.1 = n) = true
  · rw [if_pos hany, find?_map_set_ne n vals m hm df]
  · rw [if_neg hany, List.find?_append]
    have hnone : (List.find? (fun c => c.1 = m) [(n, vals)]) = none := by
      rw [List.find?_eq_none]
      intro c hc
      simp only [List.mem_singleton] at hc
      rw [hc]
      simp only [decide_eq_true_eq]
      exact fun h => hm h.symm
    rw [hnone]
    cases df.find? fun c => c.1 = m <;> rfl

/-- Labels after `setCol`: the assigned label plus the existing labels. -/
theorem mem_dfNames_setCol (df : DF) (n : String)
    (vals : List (Option String)) (m : String) :
    m ∈ dfNames (setCol df n vals) ↔ m = n ∨ m ∈ dfNames df := by
  unfold dfNames setCol
  by_cases hany : (df.any fun c => c.1 = n) = true
  · rw [if_pos hany]
    constructor
    · intro h
      rcases List.mem_map.mp h with ⟨c, hcmem, hfc⟩
      rcases List.mem_map.mp hcmem with ⟨c0, hc0, rfl⟩
      by_cases hcn : c0.1 = n
      · left
        rw [← hfc, if_pos hcn]
      · right
        rw [← hfc, if_neg hcn]
        exact List.mem_map.mpr ⟨c0, hc0, rfl⟩
    · intro h
      rcases h with rfl | hmem
      · rcases List.any_eq_true.mp hany with ⟨c, hc, hcn⟩
        simp only [decide_eq_true_eq] at hcn
        refine List.mem_map.mpr ⟨(m, vals), ?_, rfl⟩
        exact List.mem_map.mpr ⟨c, hc, by rw [if_pos hcn]⟩
      · rcases List.mem_map.mp hmem with ⟨c, hc, rfl⟩
        by_cases hcn : c.1 = n
        · refine List.mem_map.mpr ⟨(n, vals), ?_, hcn.symm⟩
          exact List.mem_map.mpr ⟨c, hc, by rw [if_pos hcn]⟩
        · refine List.mem_map.mpr ⟨c, ?_, rfl⟩
          exact List.mem_map.mpr ⟨c, hc, by rw [if_neg hcn]⟩
  · rw [if_neg hany, List.map_append, List.mem_append]
    simp only [List.map_cons, List.map_nil, List.mem_singleton]
    exact ⟨fun h => h.elim Or.inr Or.inl, fun h => h.elim Or.inr Or.inl⟩

/-- Labels after `dropCol`: the existing labels other than the dropped one. -/
theorem mem_dfNames_dropCol (df : DF) (n m : String) :
    m ∈ dfNames (dropCol df n) ↔ ¬ m = n ∧ m ∈ dfNames df := by
  unfold dfNames dropCol
  constructor
  · intro h
    rcases List.mem_map.mp h with ⟨c, hc, rfl⟩
    have hcf := List.mem_filter.mp hc
    exact ⟨by simpa using hcf.2, List.mem_map.mpr ⟨c, hcf.1, rfl⟩⟩
  · rintro ⟨hmn, hmem⟩
    rcases List.mem_map.mp hmem with ⟨c, hc, rfl⟩
    exact List.mem_map.mpr ⟨c, List.mem_filter.mpr ⟨hc, by simpa using hmn⟩, rfl⟩

/-- Labels after PII removal: the existing non-PII labels. -/
theorem mem_dfNames_drop_pii (df : DF) (m : String) :
    m ∈ dfNames (drop_pii df) ↔ ¬ m ∈ pii_columns ∧ m ∈ dfNames df := by
  unfold dfNames drop_pii
  constructor
  · intro h
    rcases List.mem_map.mp h with ⟨c, hc, rfl⟩
    have hcf := List.mem_filter.mp hc
    exact ⟨by simpa using hcf.2, List.mem_map.mpr ⟨c, hcf.1, rfl⟩⟩
  · rintro ⟨hmn, hmem⟩
    rcases List.mem_map.mp hmem with ⟨c, hc, rfl⟩
    exact List.mem_map.mpr ⟨c, List.mem_filter.mpr ⟨hc, by simpa using hmn⟩, rfl⟩

/-- PII removal drops exactly the listed labels that are present. -/
theorem dfNames_drop_pii (df : DF) :
    dfNames (drop_pii df) = (dfNames df).filter fun s => ¬ s ∈ pii_columns := by
  unfold dfNames drop_pii
  induction df with
  | nil => rfl
  | cons c t ih =>
    rw [List.map_cons, List.filter_cons, List.filter_cons]
    by_cases hc : c.1 ∈ pii_columns
    · have hd : (decide (¬ c.1 ∈ pii_columns)) = false := by simp [hc]
      rw [hd]
      simp only [Bool.false_eq_true, if_false]
      exact ih
    · have hd : (decide (¬ c.1 ∈ pii_columns)) = true := by simp [hc]
      rw [hd]
      simp only [if_true, List.map_cons]
      rw [ih]

/-- An anonymization step with a present source column yields a table with
the ID column (carrying the codebook lookups of the source cells) and
without the source column. -/
theorem anonymize_step_present (df : DF) (src idc pre : String)
    (hsrc : src ∈ dfNames df) (hne : ¬ idc = src) :
    idc ∈ dfNames (anonymize_step df src idc pre) ∧
    src ∉ dfNames (anonymize_step df src idc pre) ∧
    getCol (anonymize_step df src idc pre) idc
      = (getCol df src).map fun v =>
          List.lookup (cellStr v) (make_codebook (getCol df src) pre) := by
  unfold anonymize_step
  rw [if_pos hsrc]
  refine ⟨?_, ?_, ?_⟩
  · exact (mem_dfNames_dropCol _ src idc).mpr
      ⟨hne, (mem_dfNames_setCol df idc _ idc).mpr (Or.inl rfl)⟩
  · intro hmem
    exact ((mem_dfNames_dropCol _ src src).mp hmem).1 rfl
  · rw [getCol_dropCol_ne _ src idc hne, getCol_setCol_self]

/-- An anonymization step does not disturb columns other than its source
and ID columns. -/
theorem anonymize_step_other (df : DF) (src idc pre m : String)
    (hm1 : ¬ m = src) (hm2 : ¬ m = idc) :
    (m ∈ dfNames (anonymize_step df src idc pre) ↔ m ∈ dfNames df) ∧
    getCol (anonymize_step df src idc pre) m = getCol df m := by
  unfold anonymize_step
  by_cases hsrc : src ∈ dfNames df
  · rw [if_pos hsrc]
    constructor
    · rw [mem_dfNames_dropCol, mem_dfNames_setCol]
      constructor
      · rintro ⟨_, h | h⟩
        · exact absurd h hm2
        · exact h
      · intro h
        exact ⟨hm1, Or.inr h⟩
    · rw [getCol_dropCol_ne _ src m hm1, getCol_setCol_ne df idc _ m hm2]
  · rw [if_neg hsrc]
    exact ⟨Iff.rfl, rfl⟩

/-- A label in an anonymization step's output is the ID label or was
already present. -/
theorem mem_dfNames_anonymize_step (df : DF) (src idc pre m : String) :
    m ∈ dfNames (anonymize_step df src idc pre) →
      m = idc ∨ m ∈ dfNames df := by
  unfold anonymize_step
  by_cases hsrc : src ∈ dfNames df
  · rw [if_pos hsrc]
    intro h
    have h2 := ((mem_dfNames_dropCol _ src m).mp h).2
    exact (mem_dfNames_setCol df idc _ m).mp h2
  · rw [if_neg hsrc]
    exact Or.inr

/-- Lookup of any distinct non-null value in its codebook succeeds. -/
theorem lookup_make_codebook_isSome (l : List (Option String))
    (pre v : String) (hv : v ∈ l.filterMap id) :
    (List.lookup v (make_codebook l pre)).isSome = true := by
  rw [show make_codebook l pre = numberFrom pre 1 (sortedDistinct l) from rfl]
  exact (lookup_numberFrom_isSome pre v (sortedDistinct l) 1).mpr
    (mem_sortedDistinct.mpr hv)

/-- C6 — anonymization: a configured sensitive column absent from the input
is skipped without failure; for each configured sensitive column present in
the input, the output contains the generated ID column in place of the
source column (the source column is gone), and each non-null source cell's
ID cell is exactly the persisted codebook's entry for that value (which
exists). -/
theorem anonymization_referential_spec (df : DF) :
    (∀ (d : DF) (src idc pre : String),
        src ∉ dfNames d → anonymize_step d src idc pre = d) ∧
    ("Item Name" ∈ dfNames df →
      "Item ID" ∈ dfNames (data_cleansing_main df) ∧
      "Item Name" ∉ dfNames (data_cleansing_main df) ∧
      getCol (data_cleansing_main df) "Item ID"
        = ((getCol df "Item Name").map fun v =>
            List.lookup (cellStr v)
              (make_codebook (getCol df "Item Name") "MTI")) ∧
      (∀ (i : Nat) (v : String),
        (getCol df "Item Name").get? i = some (some v) →
        (getCol (data_cleansing_main df) "Item ID").get? i
            = some (List.lookup v (make_codebook (getCol df "Item Name") "MTI")) ∧
          (List.lookup v
            (make_codebook (getCol df "Item Name") "MTI")).isSome = true)) ∧
    ("Item Modifiers" ∈ dfNames df →
      "Modifier ID" ∈ dfNames (data_cleansing_main df) ∧
      "Item Modifiers" ∉ dfNames (data_cleansing_main df) ∧
      getCol (data_cleansing_main df) "Modifier ID"
        = ((getCol df "Item Modifiers").map fun v =>
            List.lookup (cellStr v)
              (make_codebook (getCol df "Item Modifiers") "MTM")) ∧
      (∀ (i : Nat) (v : String),
        (getCol df "Item Modifiers").get? i = some (some v) →
        (getCol (data_cleansing_main df) "Modifier ID").get? i
            = some (List.lookup v
                (make_codebook (getCol df "Item Modifiers") "MTM")) ∧
          (List.lookup v
            (make_codebook (getCol df "Item Modifiers") "MTM")).isSome = true)) := by
  refine ⟨?_, ?_, ?_⟩
  · intro d src idc pre h
    unfold anonymize_step
    rw [if_neg h]
  · intro hsrc
    have hnp : ¬ "Item Name" ∈ pii_columns := by decide
    have hD0 : "Item Name" ∈ dfNames (drop_pii df) :=
      (mem_dfNames_drop_pii df "Item Name").mpr ⟨hnp, hsrc⟩
    have hcol0 : getCol (drop_pii df) "Item Name" = getCol df "Item Name" :=
      getCol_drop_pii df "Item Name" hnp
    have h1 := anonymize_step_present (drop_pii df) "Item Name" "Item ID"
      "MTI" hD0 (by decide)
    have h2 := anonymize_step_other
      (anonymize_step (drop_pii df) "Item Name" "Item ID" "MTI")
      "Item Modifiers" "Modifier ID" "MTM" "Item ID" (by decide) (by decide)
    have hcol : getCol (data_cleansing_main df) "Item ID"
        = (getCol df "Item Name").map fun v =>
            List.lookup (cellStr v)
              (make_codebook (getCol df "Item Name") "MTI") := by
      unfold data_cleansing_main
      rw [h2.2, h1.2.2, hcol0]
    refine ⟨h2.1.mpr h1.1, ?_, hcol, ?_⟩
    · intro hmem
      unfold data_cleansing_main at hmem
      rcases mem_dfNames_anonymize_step _ _ _ _ _ hmem with h | h
      · exact absurd h (by decide)
      · exact h1.2.1 h
    · intro i v hiv
      constructor
      · rw [hcol, List.get?_map, hiv]
        rfl
      · exact lookup_make_codebook_isSome _ "MTI" v
          (List.mem_filterMap.mpr ⟨some v, List.get?_mem hiv, rfl⟩)
  · intro hsrc
    have hnp : ¬ "Item Modifiers" ∈ pii_columns := by decide
    have hD0 : "Item Modifiers" ∈ dfNames (drop_pii df) :=
      (mem_dfNames_drop_pii df "Item Modifiers").mpr ⟨hnp, hsrc⟩
    have hcol0 : getCol (drop_pii df) "Item Modifiers"
        = getCol df "Item Modifiers" :=
      getCol_drop_pii df "Item Modifiers" hnp
    have h0 := anonymize_step_other (drop_pii df) "Item Name" "Item ID"
      "MTI" "Item Modifiers" (by decide) (by decide)
    have h1 := anonymize_step_present
      (anonymize_step (drop_pii df) "Item Name" "Item ID" "MTI")
      "Item Modifiers" "Modifier ID" "MTM" (h0.1.mpr hD0) (by decide)
    have hcol : getCol (data_cleansing_main df) "Modifier ID"
        = (getCol df "Item Modifiers").map fun v =>
            List.lookup (cellStr v)
              (make_codebook (getCol df "Item Modifiers") "MTM") := by
      unfold data_cleansing_main
      rw [h1.2.2, h0.2, hcol0]
    refine ⟨h1.1, h1.2.1, hcol, ?_⟩
    intro i v hiv
    constructor
    · rw [hcol, List.get?_map, hiv]
      rfl
    · exact lookup_make_codebook_isSome _ "MTM" v
        (List.mem_filterMap.mpr ⟨some v, List.get?_mem hiv, rfl⟩)

/-- C6 witness: on a one-column table the ID column appears in the output. -/
theorem anonymization_referential_spec_witness :
    "Item ID" ∈ dfNames (data_cleansing_main [("Item Name", [some "Latte"])]) :=
  ((anonymization_referential_spec [("Item Name", [some "Latte"])]).2.1
    (by decide)).1

/-- C7 — PII removal: no fixed PII column name appears in the anonymized
output's labels, and the removal step keeps exactly the non-PII labels
(so a listed column absent from the input is simply not dropped — no
failure). -/
theorem pii_removal_spec (df : DF) :
    (∀ p ∈ pii_columns, p ∉ dfNames (data_cleansing_main df)) ∧
    dfNames (drop_pii df) = (dfNames df).filter fun s => ¬ s ∈ pii_columns := by
  constructor
  · intro p hp hmem
    unfold data_cleansing_main at hmem
    rcases mem_dfNames_anonymize_step _ _ _ _ _ hmem with h | h
    · subst h
      exact absurd hp (by decide)
    · rcases mem_dfNames_anonymize_step _ _ _ _ _ h with h2 | h2
      · subst h2
        exact absurd hp (by decide)
      · exact ((mem_dfNames_drop_pii df p).mp h2).1 hp
  · exact dfNames_drop_pii df

/-- C7 witness: a present PII column is gone from the output labels. -/
theorem pii_removal_spec_witness :
    "Order Name" ∉ dfNames (data_cleansing_main [("Order Name", [some "x"])]) :=
  (pii_removal_spec [("Order Name", [some "x"])]).1 "Order Name" (by decide)

/-! ## Weather column normalization (`normalize_weather_columns`) -/

/-- A raw weather DataFrame: named columns of raw cells. -/
abbrev WDF := List (String × List Cell)

/-- Python's `str.lower()` (ASCII column names), character by character. -/
def lowerStr (s : String) : String := String.mk (s.data.map Char.toLower)

/-- The priority-ordered alias lists of `WEATHER_COLUMN_ALIASES`. -/
def dateAliases : List String := ["date", "day", "obs_date"]

def tempAliases : List String := ["temp", "temperature", "temp_f", "tavg"]

def rainAliases : List String := ["rain", "precip", "precipitation",
  "rainfall", "prcp"]

/-- Alias resolution as the code performs it: scan the alias list in
priority order; for the first alias carried by some column, take the column
delivered by the `lower_cols` dict — the LAST column with that lowercased
name, since later dict insertions overwrite earlier ones. -/
def resolveAlias (df : WDF) : List String → Option (String × List Cell)
  | [] => none
  | a :: rest =>
    match df.reverse.find? fun c => lowerStr c.1 = a with
    | some c => some c
    | none => resolveAlias df rest

/-- Alias resolution as the spec sentence reads: scan the alias list in
priority order and take the FIRST input column whose lowercased name
matches. -/
def resolveAliasFirst (df : WDF) : List String → Option (String × List Cell)
  | [] => none
  | a :: rest =>
    match df.find? fun c => lowerStr c.1 = a with
    | some c => some c
    | none => resolveAliasFirst df rest

/-- The label each column receives from `df.rename(columns=renamed)`. -/
def renameTargets (df : WDF) (n : String) : String :=
  if (resolveAlias df dateAliases).map Prod.fst = some n then "date"
  else if (resolveAlias df tempAliases).map Prod.fst = some n then "temp"
  else if (resolveAlias df rainAliases).map Prod.fst = some n then "rain"
  else n

/-- The renamed DataFrame. -/
def renamedDF (df : WDF) : WDF :=
  df.map fun c => (renameTargets df c.1, c.2)

/-- `[col for col in ["date","temp","rain"] if col not in df.columns]`
after renaming. -/
def missingTargets (df : WDF) : List String :=
  ["date", "temp", "rain"].filter fun t => ¬ t ∈ (renamedDF df).map Prod.fst

/-- `normalize_weather_columns` from `make_daily_revenue_weather_v1.py`:
rename the resolved columns, fail when a required target is still missing
(the message listing the missing targets), else select
`df[["date","temp","rain"]]` — all columns now labelled `date`, then all
labelled `temp`, then all labelled `rain`. -/
def normalize_weather_columns (df : WDF) : Except String WDF :=
  if missingTargets df = [] then
    .ok (((renamedDF df).filter fun c => c.1 = "date")
      ++ ((renamedDF df).filter fun c => c.1 = "temp")
      ++ ((renamedDF df).filter fun c => c.1 = "rain"))
  else
    .error ("Weather file missing required columns. "
      ++ "Expected columns like: date, temp, rain. "
      ++ "Missing: " ++ String.intercalate ", " (missingTargets df) ++ ".")

/-- C8 counterexample: with two input columns sharing the lowercased name
`date` (`"date"` and `"Date"`), the code renames the LAST one (`"Date"`,
via dict overwrite in `lower_cols`), not the first, and the selection
`df[["date","temp","rain"]]` then returns BOTH `date`-labelled columns —
four columns, not exactly `date, temp, rain` as the claim states. -/
theorem normalize_weather_columns_counterexample :
    normalize_weather_columns
        [("date", [Cell.num 1]), ("Date", [Cell.num 2]),
         ("temp", [Cell.num 3]), ("rain", [Cell.num 4])]
      = .ok [("date", [Cell.num 1]), ("date", [Cell.num 2]),
             ("temp", [Cell.num 3]), ("rain", [Cell.num 4])] ∧
    [("date", [Cell.num 1]), ("date", [Cell.num 2]), ("temp", [Cell.num 3]),
        ("rain", [Cell.num 4])].map Prod.fst ≠ ["date", "temp", "rain"] :=
  ⟨rfl, by decide⟩

/-- `find?` coincides with the head of the filtered list. -/
theorem find?_eq_head?_filter {α : Type} (p : α → Bool) (l : List α) :
    l.find? p = (l.filter p).head? := by
  induction l with
  | nil => rfl
  | cons a t ih =>
    by_cases hp : p a = true
    · rw [List.find?_cons_of_pos _ hp, List.filter_cons, hp]
      rfl
    · have hp' : p a = false := by
        cases hpa : p a
        · rfl
        · exact absurd hpa hp
      rw [List.find?_cons_of_neg _ (by simp [hp']), List.filter_cons, hp']
      simpa using ih

/-- When at most one element satisfies the predicate, searching from the
back finds the same element as searching from the front. -/
theorem find?_reverse_of_le_one {α : Type} (p : α → Bool) (l : List α)
    (h : l.countP p ≤ 1) : l.reverse.find? p = l.find? p := by
  rw [find?_eq_head?_filter, find?_eq_head?_filter, List.filter_reverse]
  rcases hf : l.filter p with _ | ⟨a, t⟩
  · rfl
  · have hlen : (l.filter p).length ≤ 1 := by
      rw [← List.countP_eq_length_filter]
      exact h
    rw [hf] at hlen
    have ht : t = [] := by
      cases t with
      | nil => rfl
      | cons x s => simp at hlen
    subst ht
    rfl

/-- With pairwise-distinct lowercased column names, last-match resolution
equals first-match resolution. -/
theorem resolveAlias_eq_first (df : WDF)
    (hlow : (df.map fun c => lowerStr c.1).Nodup) :
    ∀ al : List String, resolveAlias df al = resolveAliasFirst df al := by
  intro al
  induction al with
  | nil => rfl
  | cons a rest ih =>
    have hcnt : df.countP (fun c => lowerStr c.1 = a) ≤ 1 := by
      rw [List.countP_eq_length_filter]
      exact length_filter_key_le_one (fun c => lowerStr c.1) df hlow a
    rw [resolveAlias, resolveAliasFirst,
      find?_reverse_of_le_one (fun c => lowerStr c.1 = a) df hcnt]
    cases h : df.find? fun c => lowerStr c.1 = a with
    | some c => rfl
    | none => exact ih

/-- A resolved column belongs to the table and carries one of the aliases
as its lowercased name. -/
theorem resolveAlias_mem_lower (df : WDF) :
    ∀ (al : List String) (c : String × List Cell),
      resolveAlias df al = some c → c ∈ df ∧ lowerStr c.1 ∈ al := by
  intro al
  induction al with
  | nil => intro c h; cases h
  | cons a rest ih =>
    intro c h
    rw [resolveAlias] at h
    cases hf : df.reverse.find? fun c' => lowerStr c'.1 = a with
    | some c0 =>
      rw [hf] at h
      cases h
      refine ⟨List.mem_reverse.mp (List.mem_of_find?_eq_some hf), ?_⟩
      have := List.find?_some hf
      simp only [decide_eq_true_eq] at this
      exact List.mem_cons.mpr (Or.inl this)
    | none =>
      rw [hf] at h
      rcases ih c h with ⟨hm, hl⟩
      exact ⟨hm, List.mem_cons.mpr (Or.inr hl)⟩

/-- When some column's lowercased name equals the head alias, resolution
succeeds and returns a column lowercasing to that head alias. -/
theorem resolveAlias_head (df : WDF) (a : String) (rest : List String)
    (cw : String × List Cell) (hcw : cw ∈ df) (hl : lowerStr cw.1 = a) :
    ∃ c, resolveAlias df (a :: rest) = some c ∧ c ∈ df ∧
      lowerStr c.1 = a := by
  have hsome : (df.reverse.find? fun c => lowerStr c.1 = a).isSome :=
    List.find?_isSome.mpr ⟨cw, List.mem_reverse.mpr hcw, by simp [hl]⟩
  cases hf : df.reverse.find? fun c => lowerStr c.1 = a with
  | none => rw [hf] at hsome; cases hsome
  | some c =>
    refine ⟨c, ?_, List.mem_reverse.mp (List.mem_of_find?_eq_some hf), ?_⟩
    · rw [resolveAlias, hf]
    · have := List.find?_some hf
      simpa using this

/-- The alias lists of distinct targets are disjoint (date/temp). -/
theorem aliases_disjoint_dt {s : String} (h1 : s ∈ dateAliases)
    (h2 : s ∈ tempAliases) : False := by
  simp only [dateAliases, List.mem_cons, List.mem_singleton,
    List.not_mem_nil, or_false] at h1
  rcases h1 with rfl | rfl | rfl <;> exact absurd h2 (by decide)

/-- The alias lists of distinct targets are disjoint (date/rain). -/
theorem aliases_disjoint_dr {s : String} (h1 : s ∈ dateAliases)
    (h2 : s ∈ rainAliases) : False := by
  simp only [dateAliases, List.mem_cons, List.mem_singleton,
    List.not_mem_nil, or_false] at h1
  rcases h1 with rfl | rfl | rfl <;> exact absurd h2 (by decide)

/-- The alias lists of distinct targets are disjoint (temp/rain). -/
theorem aliases_disjoint_tr {s : String} (h1 : s ∈ tempAliases)
    (h2 : s ∈ rainAliases) : False := by
  simp only [tempAliases, List.mem_cons, List.mem_singleton,
    List.not_mem_nil, or_false] at h1
  rcases h1 with rfl | rfl | rfl | rfl <;> exact absurd h2 (by decide)

/-- `date` appears among the renamed labels iff its aliases resolve. -/
theorem date_mem_renamed (df : WDF) :
    "date" ∈ (renamedDF df).map Prod.fst ↔
      (resolveAlias df dateAliases).isSome = true := by
  constructor
  · intro h
    rcases List.mem_map.mp h with ⟨c', hc', hname0⟩
    rcases List.mem_map.mp hc' with ⟨c, hc, rfl⟩
    have hname : renameTargets df c.1 = _ := hname0
    unfold renameTargets at hname
    by_cases h1 : (resolveAlias df dateAliases).map Prod.fst = some c.1
    · cases hres : resolveAlias df dateAliases with
      | none => rw [hres] at h1; cases h1
      | some cd => rfl
    · rw [if_neg h1] at hname
      by_cases h2 : (resolveAlias df tempAliases).map Prod.fst = some c.1
      · rw [if_pos h2] at hname
        exact absurd hname (by decide)
      · rw [if_neg h2] at hname
        by_cases h3 : (resolveAlias df rainAliases).map Prod.fst = some c.1
        · rw [if_pos h3] at hname
          exact absurd hname (by decide)
        · rw [if_neg h3] at hname
          have hl : lowerStr c.1 = "date" := by rw [hname]; decide
          rcases resolveAlias_head df "date" ["day", "obs_date"] c hc hl with
            ⟨c0, hres, _, _⟩
          rw [show dateAliases = "date" :: ["day", "obs_date"] from rfl, hres]
          rfl
  · intro h
    cases hres : resolveAlias df dateAliases with
    | none => rw [hres] at h; cases h
    | some cd =>
      have hmem : cd ∈ df := (resolveAlias_mem_lower df dateAliases cd hres).1
      have hname : renameTargets df cd.1 = "date" := by
        unfold renameTargets
        rw [if_pos (by rw [hres]; rfl)]
      exact List.mem_map.mpr ⟨(renameTargets df cd.1, cd.2),
        List.mem_map.mpr ⟨cd, hmem, rfl⟩, hname⟩

/-- `temp` appears among the renamed labels iff its aliases resolve. -/
theorem temp_mem_renamed (df : WDF) :
    "temp" ∈ (renamedDF df).map Prod.fst ↔
      (resolveAlias df tempAliases).isSome = true := by
  constructor
  · intro h
    rcases List.mem_map.mp h with ⟨c', hc', hname0⟩
    rcases List.mem_map.mp hc' with ⟨c, hc, rfl⟩
    have hname : renameTargets df c.1 = _ := hname0
    unfold renameTargets at hname
    by_cases h1 : (resolveAlias df dateAliases).map Prod.fst = some c.1
    · rw [if_pos h1] at hname
      exact absurd hname (by decide)
    · rw [if_neg h1] at hname
      by_cases h2 : (resolveAlias df tempAliases).map Prod.fst = some c.1
      · cases hres : resolveAlias df tempAliases with
        | none => rw [hres] at h2; cases h2
        | some ct => rfl
      · rw [if_neg h2] at hname
        by_cases h3 : (resolveAlias df rainAliases).map Prod.fst = some c.1
        · rw [if_pos h3] at hname
          exact absurd hname (by decide)
        · rw [if_neg h3] at hname
          have hl : lowerStr c.1 = "temp" := by rw [hname]; decide
          rcases resolveAlias_head df "temp"
              ["temperature", "temp_f", "tavg"] c hc hl with ⟨c0, hres, _, _⟩
          rw [show tempAliases
            = "temp" :: ["temperature", "temp_f", "tavg"] from rfl, hres]
          rfl
  · intro h
    cases hres : resolveAlias df tempAliases with
    | none => rw [hres] at h; cases h
    | some ct =>
      have hmem : ct ∈ df := (resolveAlias_mem_lower df tempAliases ct hres).1
      have hlow : lowerStr ct.1 ∈ tempAliases :=
        (resolveAlias_mem_lower df tempAliases ct hres).2
      have h1 : ¬ (resolveAlias df dateAliases).map Prod.fst = some ct.1 := by
        intro h1
        cases hresd : resolveAlias df dateAliases with
        | none => rw [hresd] at h1; cases h1
        | some cd =>
          rw [hresd] at h1
          have heq : cd.1 = ct.1 := Option.some.inj h1
          have hld : lowerStr cd.1 ∈ dateAliases :=
            (resolveAlias_mem_lower df dateAliases cd hresd).2
          rw [heq] at hld
          exact aliases_disjoint_dt hld hlow
      have hname : renameTargets df ct.1 = "temp" := by
        unfold renameTargets
        rw [if_neg h1, if_pos (by rw [hres]; rfl)]
      exact List.mem_map.mpr ⟨(renameTargets df ct.1, ct.2),
        List.mem_map.mpr ⟨ct, hmem, rfl⟩, hname⟩

/-- `rain` appears among the renamed labels iff its aliases resolve. -/
theorem rain_mem_renamed (df : WDF) :
    "rain" ∈ (renamedDF df).map Prod.fst ↔
      (resolveAlias df rainAliases).isSome = true := by
  constructor
  · intro h
    rcases List.mem_map.mp h with ⟨c', hc', hname0⟩
    rcases List.mem_map.mp hc' with ⟨c, hc, rfl⟩
    have hname : renameTargets df c.1 = _ := hname0
    unfold renameTargets at hname
    by_cases h1 : (resolveAlias df dateAliases).map Prod.fst = some c.1
    · rw [if_pos h1] at hname
      exact absurd hname (by decide)
    · rw [if_neg h1] at hname
      by_cases h2 : (resolveAlias df tempAliases).map Prod.fst = some c.1
      · rw [if_pos h2] at hname
        exact absurd hname (by decide)
      · rw [if_neg h2] at hname
        by_cases h3 : (resolveAlias df rainAliases).map Prod.fst = some c.1
        · cases hres : resolveAlias df rainAliases with
          | none => rw [hres] at h3; cases h3
          | some cr => rfl
        · rw [if_neg h3] at hname
          have hl : lowerStr c.1 = "rain" := by rw [hname]; decide
          rcases resolveAlias_head df "rain"
              ["precip", "precipitation", "rainfall", "prcp"] c hc hl with
            ⟨c0, hres, _, _⟩
          rw [show rainAliases = "rain" ::
            ["precip", "precipitation", "rainfall", "prcp"] from rfl, hres]
          rfl
  · intro h
    cases hres : resolveAlias df rainAliases with
    | none => rw [hres] at h; cases h
    | some cr =>
      have hmem : cr ∈ df := (resolveAlias_mem_lower df rainAliases cr hres).1
      have hlow : lowerStr cr.1 ∈ rainAliases :=
        (resolveAlias_mem_lower df rainAliases cr hres).2
      have h1 : ¬ (resolveAlias df dateAliases).map Prod.fst = some cr.1 := by
        intro h1
        cases hresd : resolveAlias df dateAliases with
        | none => rw [hresd] at h1; cases h1
        | some cd =>
          rw [hresd] at h1
          have heq : cd.1 = cr.1 := Option.some.inj h1
          have hld : lowerStr cd.1 ∈ dateAliases :=
            (resolveAlias_mem_lower df dateAliases cd hresd).2
          rw [heq] at hld
          exact aliases_disjoint_dr hld hlow
      have h2 : ¬ (resolveAlias df tempAliases).map Prod.fst = some cr.1 := by
        intro h2
        cases hrest : resolveAlias df tempAliases with
        | none => rw [hrest] at h2; cases h2
        | some ct =>
          rw [hrest] at h2
          have heq : ct.1 = cr.1 := Option.some.inj h2
          have hlt : lowerStr ct.1 ∈ tempAliases :=
            (resolveAlias_mem_lower df tempAliases ct hrest).2
          rw [heq] at hlt
          exact aliases_disjoint_tr hlt hlow
      have hname : renameTargets df cr.1 = "rain" := by
        unfold renameTargets
        rw [if_neg h1, if_neg h2, if_pos (by rw [hres]; rfl)]
      exact List.mem_map.mpr ⟨(renameTargets df cr.1, cr.2),
        List.mem_map.mpr ⟨cr, hmem, rfl⟩, hname⟩

/-- A filter that provably catches `x`, and at most one element, is `[x]`. -/
theorem filter_eq_singleton_of {α : Type} (p : α → Bool) (l : List α) (x : α)
    (hx : x ∈ l) (hpx : p x = true) (hcnt : l.countP p ≤ 1) :
    l.filter p = [x] := by
  have hmem : x ∈ l.filter p := List.mem_filter.mpr ⟨hx, hpx⟩
  have hlen : (l.filter p).length ≤ 1 := by
    rw [← List.countP_eq_length_filter]
    exact hcnt
  cases hf : l.filter p with
  | nil => rw [hf] at hmem; cases hmem
  | cons a t =>
    rw [hf] at hmem hlen
    have ht : t = [] := by
      cases t with
      | nil => rfl
      | cons y s => simp at hlen
    subst ht
    rcases List.mem_singleton.mp hmem with rfl
    rfl

/-- Distinct lowercased labels give distinct labels. -/
theorem names_nodup_of_lower (df : WDF)
    (hlow : (df.map fun c => lowerStr c.1).Nodup) :
    (df.map fun c => c.1).Nodup := by
  have hdfnd : df.Nodup := hlow.of_map
  have hinj := List.inj_on_of_nodup_map hlow
  exact (List.nodup_map_iff_inj_on hdfnd).mpr
    (fun c hc c' hc' h => hinj hc hc' (by rw [h]))

/-- With distinct lowercased labels, at most one column carries any label. -/
theorem countP_name_le_one (df : WDF)
    (hlow : (df.map fun c => lowerStr c.1).Nodup) (n : String) :
    df.countP (fun c => c.1 = n) ≤ 1 := by
  rw [List.countP_eq_length_filter]
  exact length_filter_key_le_one (fun c => c.1) df
    (names_nodup_of_lower df hlow) n

/-- With distinct lowercased labels, the columns selected by the label
`date` after renaming are exactly the resolved date column's cells. -/
theorem filter_renamed_date (df : WDF)
    (hlow : (df.map fun c => lowerStr c.1).Nodup)
    (cd : String × List Cell)
    (hres : resolveAlias df dateAliases = some cd) :
    (renamedDF df).filter (fun c => c.1 = "date") = [("date", cd.2)] := by
  have hmem : cd ∈ df := (resolveAlias_mem_lower df dateAliases cd hres).1
  have hinj := List.inj_on_of_nodup_map hlow
  have hcd_name : renameTargets df cd.1 = "date" := by
    unfold renameTargets
    rw [if_pos (by rw [hres]; rfl)]
  have hub : ∀ c ∈ df, renameTargets df c.1 = "date" → c.1 = cd.1 := by
    intro c hc hname
    unfold renameTargets at hname
    by_cases h1 : (resolveAlias df dateAliases).map Prod.fst = some c.1
    · rw [hres] at h1
      exact (Option.some.inj h1).symm
    · rw [if_neg h1] at hname
      by_cases h2 : (resolveAlias df tempAliases).map Prod.fst = some c.1
      · rw [if_pos h2] at hname
        exact absurd hname (by decide)
      · rw [if_neg h2] at hname
        by_cases h3 : (resolveAlias df rainAliases).map Prod.fst = some c.1
        · rw [if_pos h3] at hname
          exact absurd hname (by decide)
        · rw [if_neg h3] at hname
          have hl : lowerStr c.1 = "date" := by rw [hname]; decide
          rcases resolveAlias_head df "date" ["day", "obs_date"] c hc hl with
            ⟨c0, hres0, _, hl0⟩
          rw [show dateAliases = "date" :: ["day", "obs_date"] from rfl]
            at hres
          rw [hres0] at hres
          cases hres
          have : c = cd := hinj hc hmem (by rw [hl, hl0])
          rw [this]
  have hcnt : df.countP (fun c => renameTargets df c.1 = "date") ≤ 1 := by
    calc df.countP (fun c => renameTargets df c.1 = "date")
        ≤ df.countP (fun c => c.1 = cd.1) := by
          apply List.countP_mono_left
          intro c hc h
          simp only [decide_eq_true_eq] at h ⊢
          exact hub c hc h
      _ ≤ 1 := countP_name_le_one df hlow cd.1
  have hfil : df.filter (fun c => renameTargets df c.1 = "date") = [cd] :=
    filter_eq_singleton_of _ df cd hmem (by simp [hcd_name]) hcnt
  unfold renamedDF
  rw [List.filter_map]
  have hpf : ((fun c : String × List Cell => decide (c.1 = "date")) ∘
      fun c : String × List Cell => (renameTargets df c.1, c.2))
      = fun c : String × List Cell =>
          decide (renameTargets df c.1 = "date") := rfl
  rw [hpf, hfil, List.map_cons, List.map_nil, hcd_name]

/-- With distinct lowercased labels, the columns selected by the label
`temp` after renaming are exactly the resolved temp column's cells. -/
theorem filter_renamed_temp (df : WDF)
    (hlow : (df.map fun c => lowerStr c.1).Nodup)
    (ct : String × List Cell)
    (hres : resolveAlias df tempAliases = some ct) :
    (renamedDF df).filter (fun c => c.1 = "temp") = [("temp", ct.2)] := by
  have hmem : ct ∈ df := (resolveAlias_mem_lower df tempAliases ct hres).1
  have hlt : lowerStr ct.1 ∈ tempAliases :=
    (resolveAlias_mem_lower df tempAliases ct hres).2
  have hinj := List.inj_on_of_nodup_map hlow
  have h1ct : ¬ (resolveAlias df dateAliases).map Prod.fst = some ct.1 := by
    intro h1
    cases hresd : resolveAlias df dateAliases with
    | none => rw [hresd] at h1; cases h1
    | some cd =>
      rw [hresd] at h1
      have heq : cd.1 = ct.1 := Option.some.inj h1
      have hld : lowerStr cd.1 ∈ dateAliases :=
        (resolveAlias_mem_lower df dateAliases cd hresd).2
      rw [heq] at hld
      exact aliases_disjoint_dt hld hlt
  have hct_name : renameTargets df ct.1 = "temp" := by
    unfold renameTargets
    rw [if_neg h1ct, if_pos (by rw [hres]; rfl)]
  have hub : ∀ c ∈ df, renameTargets df c.1 = "temp" → c.1 = ct.1 := by
    intro c hc hname
    unfold renameTargets at hname
    by_cases h1 : (resolveAlias df dateAliases).map Prod.fst = some c.1
    · rw [if_pos h1] at hname
      exact absurd hname (by decide)
    · rw [if_neg h1] at hname
      by_cases h2 : (resolveAlias df tempAliases).map Prod.fst = some c.1
      · rw [hres] at h2
        exact (Option.some.inj h2).symm
      · rw [if_neg h2] at hname
        by_cases h3 : (resolveAlias df rainAliases).map Prod.fst = some c.1
        · rw [if_pos h3] at hname
          exact absurd hname (by decide)
        · rw [if_neg h3] at hname
          have hl : lowerStr c.1 = "temp" := by rw [hname]; decide
          rcases resolveAlias_head df "temp"
              ["temperature", "temp_f", "tavg"] c hc hl with
            ⟨c0, hres0, _, hl0⟩
          rw [show tempAliases
            = "temp" :: ["temperature", "temp_f", "tavg"] from rfl] at hres
          rw [hres0] at hres
          cases hres
          have : c = ct := hinj hc hmem (by rw [hl, hl0])
          rw [this]
  have hcnt : df.countP (fun c => renameTargets df c.1 = "temp") ≤ 1 := by
    calc df.countP (fun c => renameTargets df c.1 = "temp")
        ≤ df.countP (fun c => c.1 = ct.1) := by
          apply List.countP_mono_left
          intro c hc h
          simp only [decide_eq_true_eq] at h ⊢
          exact hub c hc h
      _ ≤ 1 := countP_name_le_one df hlow ct.1
  have hfil : df.filter (fun c => renameTargets df c.1 = "temp") = [ct] :=
    filter_eq_singleton_of _ df ct hmem (by simp [hct_name]) hcnt
  unfold renamedDF
  rw [List.filter_map]
  have hpf : ((fun c : String × List Cell => decide (c.1 = "temp")) ∘
      fun c : String × List Cell => (renameTargets df c.1, c.2))
      = fun c : String × List Cell =>
          decide (renameTargets df c.1 = "temp") := rfl
  rw [hpf, hfil, List.map_cons, List.map_nil, hct_name]

/-- With distinct lowercased labels, the columns selected by the label
`rain` after renaming are exactly the resolved rain column's cells. -/
theorem filter_renamed_rain (df : WDF)
    (hlow : (df.map fun c => lowerStr c.1).Nodup)
    (cr : String × List Cell)
    (hres : resolveAlias df rainAliases = some cr) :
    (renamedDF df).filter (fun c => c.1 = "rain") = [("rain", cr.2)] := by
  have hmem : cr ∈ df := (resolveAlias_mem_lower df rainAliases cr hres).1
  have hlr : lowerStr cr.1 ∈ rainAliases :=
    (resolveAlias_mem_lower df rainAliases cr hres).2
  have hinj := List.inj_on_of_nodup_map hlow
  have h1cr : ¬ (resolveAlias df dateAliases).map Prod.fst = some cr.1 := by
    intro h1
    cases hresd : resolveAlias df dateAliases with
    | none => rw [hresd] at h1; cases h1
    | some cd =>
      rw [hresd] at h1
      have heq : cd.1 = cr.1 := Option.some.inj h1
      have hld : lowerStr cd.1 ∈ dateAliases :=
        (resolveAlias_mem_lower df dateAliases cd hresd).2
      rw [heq] at hld
      exact aliases_disjoint_dr hld hlr
  have h2cr : ¬ (resolveAlias df tempAliases).map Prod.fst = some cr.1 := by
    intro h2
    cases hrest : resolveAlias df tempAliases with
    | none => rw [hrest] at h2; cases h2
    | some ct =>
      rw [hrest] at h2
      have heq : ct.1 = cr.1 := Option.some.inj h2
      have hlt : lowerStr ct.1 ∈ tempAliases :=
        (resolveAlias_mem_lower df tempAliases ct hrest).2
      rw [heq] at hlt
      exact aliases_disjoint_tr hlt hlr
  have hcr_name : renameTargets df cr.1 = "rain" := by
    unfold renameTargets
    rw [if_neg h1cr, if_neg h2cr, if_pos (by rw [hres]; rfl)]
  have hub : ∀ c ∈ df, renameTargets df c.1 = "rain" → c.1 = cr.1 := by
    intro c hc hname
    unfold renameTargets at hname
    by_cases h1 : (resolveAlias df dateAliases).map Prod.fst = some c.1
    · rw [if_pos h1] at hname
      exact absurd hname (by decide)
    · rw [if_neg h1] at hname
      by_cases h2 : (resolveAlias df tempAliases).map Prod.fst = some c.1
      · rw [if_pos h2] at hname
        exact absurd hname (by decide)
      · rw [if_neg h2] at hname
        by_cases h3 : (resolveAlias df rainAliases).map Prod.fst = some c.1
        · rw [hres] at h3
          exact (Option.some.inj h3).symm
        · rw [if_neg h3] at hname
          have hl : lowerStr c.1 = "rain" := by rw [hname]; decide
          rcases resolveAlias_head df "rain"
              ["precip", "precipitation", "rainfall", "prcp"] c hc hl with
            ⟨c0, hres0, _, hl0⟩
          rw [show rainAliases = "rain" ::
            ["precip", "precipitation", "rainfall", "prcp"] from rfl] at hres
          rw [hres0] at hres
          cases hres
          have : c = cr := hinj hc hmem (by rw [hl, hl0])
          rw [this]
  have hcnt : df.countP (fun c => renameTargets df c.1 = "rain") ≤ 1 := by
    calc df.countP (fun c => renameTargets df c.1 = "rain")
        ≤ df.countP (fun c => c.1 = cr.1) := by
          apply List.countP_mono_left
          intro c hc h
          simp only [decide_eq_true_eq] at h ⊢
          exact hub c hc h
      _ ≤ 1 := countP_name_le_one df hlow cr.1
  have hfil : df.filter (fun c => renameTargets df c.1 = "rain") = [cr] :=
    filter_eq_singleton_of _ df cr hmem (by simp [hcr_name]) hcnt
  unfold renamedDF
  rw [List.filter_map]
  have hpf : ((fun c : String × List Cell => decide (c.1 = "rain")) ∘
      fun c : String × List Cell => (renameTargets df c.1, c.2))
      = fun c : String × List Cell =>
          decide (renameTargets df c.1 = "rain") := rfl
  rw [hpf, hfil, List.map_cons, List.map_nil, hcr_name]

/-- C8 (amended) — on inputs whose lowercased column names are pairwise
distinct, `normalize_weather_columns` behaves as claimed: each target is
resolved by scanning its alias list in priority order and renaming the
(unique, hence first) input column whose lowercased name matches; when some
required target has no matching alias it raises a validation error whose
message names exactly the missing target(s); otherwise it returns a table
with exactly the columns `date`, `temp`, `rain`, carrying the resolved
columns' cells. -/
theorem normalize_weather_columns_amended (df : WDF)
    (hlow : (df.map fun c => lowerStr c.1).Nodup) :
    (∀ al : List String, resolveAlias df al = resolveAliasFirst df al) ∧
    ("date" ∈ missingTargets df ↔ resolveAlias df dateAliases = none) ∧
    ("temp" ∈ missingTargets df ↔ resolveAlias df tempAliases = none) ∧
    ("rain" ∈ missingTargets df ↔ resolveAlias df rainAliases = none) ∧
    (∀ m ∈ missingTargets df, m ∈ ["date", "temp", "rain"]) ∧
    (¬ missingTargets df = [] →
      normalize_weather_columns df = .error
        ("Weather file missing required columns. "
          ++ "Expected columns like: date, temp, rain. "
          ++ "Missing: " ++ String.intercalate ", " (missingTargets df)
          ++ ".")) ∧
    (∀ cd ct cr : String × List Cell,
      resolveAlias df dateAliases = some cd →
      resolveAlias df tempAliases = some ct →
      resolveAlias df rainAliases = some cr →
      normalize_weather_columns df
        = .ok [("date", cd.2), ("temp", ct.2), ("rain", cr.2)]) := by
  refine ⟨resolveAlias_eq_first df hlow, ?_, ?_, ?_, ?_, ?_, ?_⟩
  · unfold missingTargets
    rw [List.mem_filter]
    constructor
    · rintro ⟨_, hp⟩
      simp only [decide_eq_true_eq] at hp
      rw [← Option.not_isSome_iff_eq_none]
      intro hs
      exact hp ((date_mem_renamed df).mpr hs)
    · intro hnone
      refine ⟨by decide, ?_⟩
      simp only [decide_eq_true_eq]
      intro hmemr
      have := (date_mem_renamed df).mp hmemr
      rw [hnone] at this
      cases this
  · unfold missingTargets
    rw [List.mem_filter]
    constructor
    · rintro ⟨_, hp⟩
      simp only [decide_eq_true_eq] at hp
      rw [← Option.not_isSome_iff_eq_none]
      intro hs
      exact hp ((temp_mem_renamed df).mpr hs)
    · intro hnone
      refine ⟨by decide, ?_⟩
      simp only [decide_eq_true_eq]
      intro hmemr
      have := (temp_mem_renamed df).mp hmemr
      rw [hnone] at this
      cases this
  · unfold missingTargets
    rw [List.mem_filter]
    constructor
    · rintro ⟨_, hp⟩
      simp only [decide_eq_true_eq] at hp
      rw [← Option.not_isSome_iff_eq_none]
      intro hs
      exact hp ((rain_mem_renamed df).mpr hs)
    · intro hnone
      refine ⟨by decide, ?_⟩
      simp only [decide_eq_true_eq]
      intro hmemr
      have := (rain_mem_renamed df).mp hmemr
      rw [hnone] at this
      cases this
  · intro m hm
    unfold missingTargets at hm
    exact (List.mem_filter.mp hm).1
  · intro hne
    unfold normalize_weather_columns
    rw [if_neg hne]
  · intro cd ct cr hd ht hr
    have hmiss : missingTargets df = [] := by
      unfold missingTargets
      rw [List.filter_eq_nil_iff]
      intro t htmem
      simp only [List.mem_cons, List.mem_singleton, List.not_mem_nil,
        or_false] at htmem
      simp only [decide_eq_true_eq, not_not]
      rcases htmem with rfl | rfl | rfl
      · exact (date_mem_renamed df).mpr (by rw [hd]; rfl)
      · exact (temp_mem_renamed df).mpr (by rw [ht]; rfl)
      · exact (rain_mem_renamed df).mpr (by rw [hr]; rfl)
    unfold normalize_weather_columns
    rw [if_pos hmiss, filter_renamed_date df hlow cd hd,
      filter_renamed_temp df hlow ct ht, filter_renamed_rain df hlow cr hr]
    rfl

/-- C8 witness: a table with aliased headers `Date`, `temp`, `rain`
normalizes to exactly the three target columns. -/
theorem normalize_weather_columns_amended_witness :
    normalize_weather_columns
        [("Date", [Cell.num 2]), ("temp", [Cell.num 3]),
         ("rain", [Cell.num 4])]
      = .ok [("date", [Cell.num 2]), ("temp", [Cell.num 3]),
             ("rain", [Cell.num 4])] := by
  exact (normalize_weather_columns_amended
      [("Date", [Cell.num 2]), ("temp", [Cell.num 3]), ("rain", [Cell.num 4])]
      (by decide)).2.2.2.2.2.2
    ("Date", [Cell.num 2]) ("temp", [Cell.num 3]) ("rain", [Cell.num 4])
    rfl rfl rfl

/-! ## Rain summary (`src/summarize_revenue_weather.py`) -/

/-- `df["rain"] > 0` on one row: NaN compares false. -/
def rainPos (r : MergedRow) : Bool :=
  match r.rain with
  | some q => decide (0 < q)
  | none => false

/-- Mean revenue of a group of rows. -/
def meanRevenue (l : List MergedRow) : ℚ :=
  (l.map MergedRow.revenue).sum / l.length

/-- `rain_summary` from `summarize_revenue_weather.py`: group by the
`is_rain` indicator (pandas keeps only non-empty groups, keys sorted with
0 before 1), take mean revenue per group, then assign the two-element index
`["No Rain", "Rain"]` positionally — which raises a length-mismatch
`ValueError` unless exactly two groups exist. -/
def rain_summary (df : List MergedRow) : Except String (List (String × ℚ)) :=
  match (if (df.filter fun r => ¬ rainPos r).isEmpty then []
      else [meanRevenue (df.filter fun r => ¬ rainPos r)])
    ++ (if (df.filter rainPos).isEmpty then []
      else [meanRevenue (df.filter rainPos)]) with
  | [m0, m1] => .ok [("No Rain", m0), ("Rain", m1)]
  | _ => .error "Length mismatch: Expected axis has fewer than 2 elements"

/-- C9 counterexample: a merged table whose single row is rainy produces
one group, and the positional assignment of the two labels fails — the
summary does not return the two labeled groups the claim promises. -/
theorem rain_summary_counterexample :
    rain_summary [⟨20362, 10, 2, "Wednesday", some 70, some 1⟩]
      = .error "Length mismatch: Expected axis has fewer than 2 elements" :=
  rfl

/-- C9 (amended) — for a merged table containing at least one row with
rain > 0 and at least one row without (missing rain counting as not
greater than zero), the rain summary returns mean revenue for the two
groups, `No Rain` labeling the not-greater-than-zero group and `Rain` the
greater-than-zero group; the indicator is exactly `rain value > 0`. -/
theorem rain_summary_amended (df : List MergedRow)
    (h0 : ¬ (df.filter fun r => ¬ rainPos r) = [])
    (h1 : ¬ df.filter rainPos = []) :
    rain_summary df = .ok
      [("No Rain", meanRevenue (df.filter fun r => ¬ rainPos r)),
       ("Rain", meanRevenue (df.filter rainPos))] ∧
    (∀ r : MergedRow, rainPos r = true ↔ ∃ q : ℚ, r.rain = some q ∧ 0 < q) := by
  constructor
  · unfold rain_summary
    rw [if_neg (by
        rw [List.isEmpty_iff]
        exact h0),
      if_neg (by
        rw [List.isEmpty_iff]
        exact h1)]
    rfl
  · intro r
    constructor
    · intro h
      cases hq : r.rain with
      | none =>
        unfold rainPos at h
        rw [hq] at h
        cases h
      | some q =>
        unfold rainPos at h
        rw [hq] at h
        exact ⟨q, rfl, by simpa using h⟩
    · rintro ⟨q, hq, hpos⟩
      unfold rainPos
      rw [hq]
      simpa using hpos

/-- C9 witness: one rainy and one dry row give the two labeled means. -/
theorem rain_summary_amended_witness :
    rain_summary
        [⟨20362, 10, 2, "Wednesday", some 70, some 0⟩,
         ⟨20363, 20, 3, "Thursday", some 68, some 1⟩]
      = .ok
        [("No Rain", meanRevenue
            ([⟨20362, 10, 2, "Wednesday", some 70, some 0⟩,
              ⟨20363, 20, 3, "Thursday", some 68, some 1⟩].filter
              fun r => ¬ rainPos r)),
         ("Rain", meanRevenue
            ([⟨20362, 10, 2, "Wednesday", some 70, some 0⟩,
              ⟨20363, 20, 3, "Thursday", some 68, some 1⟩].filter
              rainPos))] := by
  exact (rain_summary_amended
      [⟨20362, 10, 2, "Wednesday", some 70, some 0⟩,
       ⟨20363, 20, 3, "Thursday", some 68, some 1⟩]
      (by decide) (by decide)).1
